import Mathlib

/-!
Verification of the balder topology-compatibility resolver.

Device classes and node names are represented by natural numbers (they are
only ever compared for identity in the modelled code).  Python `None` is
represented by `Option.none`.
-/

namespace Balder

/-- Embedding of `ConnectionMetadata` (`src/_balder/connection_metadata.py`).
Device classes and node names are `Nat` identifiers; fields that can be
Python `None` are `Option`s. -/
structure ConnectionMetadata where
  from_device : Option Nat
  from_node_name : Option Nat
  to_device : Option Nat
  to_node_name : Option Nat
  bidirectional : Bool
deriving DecidableEq, Repr

namespace ConnectionMetadata

/-- Embedding of the inner `check_same` of `ConnectionMetadata.__compare_with`. -/
def check_same (self other : ConnectionMetadata) : Bool :=
  self.from_device == other.from_device && self.from_node_name == other.from_node_name &&
    self.to_device == other.to_device && self.to_node_name == other.to_node_name

/-- Embedding of the inner `check_twisted` of `ConnectionMetadata.__compare_with`. -/
def check_twisted (self other : ConnectionMetadata) : Bool :=
  self.from_device == other.to_device && self.from_node_name == other.to_node_name &&
    self.to_device == other.from_device && self.to_node_name == other.from_node_name

/-- Embedding of `ConnectionMetadata.__compare_with`. -/
def compare_with (self other : ConnectionMetadata)
    (allow_single_unidirectional_for_both_directions : Bool) : Bool :=
  if self.bidirectional && other.bidirectional then
    check_same self other || check_twisted self other
  else if !self.bidirectional && !other.bidirectional then
    check_same self other
  else if allow_single_unidirectional_for_both_directions &&
      ((self.bidirectional && !other.bidirectional) ||
        (!self.bidirectional && other.bidirectional)) then
    check_same self other || check_twisted self other
  else
    false

/-- Embedding of `ConnectionMetadata.equal_with`. -/
def equal_with (self other : ConnectionMetadata) : Bool :=
  compare_with self other false

/-- Embedding of `ConnectionMetadata.contained_in`. -/
def contained_in (self other : ConnectionMetadata) : Bool :=
  compare_with self other true

/-- Embedding of `ConnectionMetadata.set_from` (the type checks of the source
cannot fail in the typed embedding; the field updates remain). -/
def set_from (self : ConnectionMetadata) (fd fn : Option Nat) : ConnectionMetadata :=
  { self with from_device := fd, from_node_name := fn }

/-- Embedding of `ConnectionMetadata.set_to`. -/
def set_to (self : ConnectionMetadata) (td tn : Option Nat) : ConnectionMetadata :=
  { self with to_device := td, to_node_name := tn }

/-- Embedding of `ConnectionMetadata.__init__`: it first runs `set_from` and
`set_to` on a blank object and then raises a `ValueError` unless all four
identity arguments are present or all four are absent. -/
def mkInit (fd td : Option Nat) (fn tn : Option Nat) (bidirectional : Bool) :
    Except String ConnectionMetadata :=
  let blank : ConnectionMetadata :=
    { from_device := none, from_node_name := none, to_device := none,
      to_node_name := none, bidirectional := bidirectional }
  let m := (blank.set_from fd fn).set_to td tn
  if (fd = none ∧ td = none ∧ fn = none ∧ tn = none) ∨
      (fd ≠ none ∧ td ≠ none ∧ fn ≠ none ∧ tn ≠ none) then
    .ok m
  else
    .error "you have to provide all or none of the following items"

/-- The all-present-or-all-absent invariant on the four identity fields. -/
def allOrNone (m : ConnectionMetadata) : Bool :=
  (m.from_device.isSome && m.from_node_name.isSome &&
      m.to_device.isSome && m.to_node_name.isSome) ||
    (m.from_device.isNone && m.from_node_name.isNone &&
      m.to_device.isNone && m.to_node_name.isNone)

end ConnectionMetadata

/-- Bidirectional metadata with the four identity fields present. -/
def mkBidi (x p y q : Nat) : ConnectionMetadata :=
  { from_device := some x, from_node_name := some p, to_device := some y,
    to_node_name := some q, bidirectional := true }

/-- Unidirectional metadata with the four identity fields present. -/
def mkUni (x p y q : Nat) : ConnectionMetadata :=
  { from_device := some x, from_node_name := some p, to_device := some y,
    to_node_name := some q, bidirectional := false }

/-- Modelled from the spec: the `Connection` class itself
(`src/_balder/connection.py`) is not part of the provided sources, so it is
modelled from the spec's Connection-Algebra contract (§3, §4.1): a connection
is an AND-combination of kinds over one endpoint-metadata record, where each
kind is a position in the single-rooted connection-type tree, represented
here by its path from the root. -/
structure Connection where
  kinds : List (List Nat)
  metadata : ConnectionMetadata
deriving DecidableEq, Repr

namespace Connection

/-- Modelled from the spec: kind containment follows the type tree; the kind
with root path `a` is an ancestor-or-self of the kind with root path `b`
exactly when `a` is a path-prefix of `b`. -/
def pathAncestorOrSelf : List Nat → List Nat → Bool
  | [], _ => true
  | _ :: _, [] => false
  | a :: as, b :: bs => a == b && pathAncestorOrSelf as bs

/-- Modelled from the spec: `get_singles()` decomposes a composite connection
into atomic single-kind connections over the same endpoint metadata. -/
def get_singles (self : Connection) : List Connection :=
  self.kinds.map (fun k => { kinds := [k], metadata := self.metadata })

/-- Modelled from the spec: `based_on` merges two connections over the same
endpoints into one requiring the union of the kinds. -/
def based_on (a b : Connection) : Connection :=
  { kinds := a.kinds ++ b.kinds, metadata := a.metadata }

/-- Modelled from the spec: `contained_in(other, ignore_metadata)` is true iff
every kind required by `self` is satisfied by a kind present in `other`
(i.e. some kind of `other` is a descendant-or-self of it, as in the spec's
example of a `Serial` requirement satisfied by a concrete `Serial-over-USB`
link) and, unless `ignore_metadata`, the endpoint/direction predicate of
`ConnectionMetadata.contained_in` holds. -/
def contained_in (self other : Connection) (ignore_metadata : Bool) : Bool :=
  (self.kinds.all fun k => other.kinds.any fun k2 => pathAncestorOrSelf k k2) &&
    (ignore_metadata || ConnectionMetadata.contained_in self.metadata other.metadata)

end Connection

/-- Ordered association-list lookup, the embedding of a Python `dict` access
(`d[k]` / `k in d.keys()`). -/
def alookup {α β : Type} [DecidableEq α] : List (α × β) → α → Option β
  | [], _ => none
  | p :: rest, a => if p.1 = a then some p.2 else alookup rest a

/-- Ordered association-list update, the embedding of a Python `d[k] = v`:
an existing key keeps its position, a new key is appended at the end. -/
def aset {α β : Type} [DecidableEq α] : List (α × β) → α → β → List (α × β)
  | [], a, b => [(a, b)]
  | p :: rest, a, b => if p.1 = a then (a, b) :: rest else p :: aset rest a b

/-- Ordered association-list deletion, the embedding of `del d[k]`. -/
def eraseKey {α β : Type} [DecidableEq α] : List (α × β) → α → List (α × β)
  | [], _ => []
  | p :: rest, a => if p.1 = a then rest else p :: eraseKey rest a

/-- The error taxonomy of the modelled controllers: each constructor stands
for one distinct Python exception class/message combination, together with
the identifying detail it carries. -/
inductive BErr where
  | fuelExhausted
  | valueError (code : Nat)
  | unclearNoVariation (cls meth vdev : Nat)
  | unclearAmbiguous (cls meth vdev : Nat)
  | multiInheritance (cls : Nat)
  | vdevOverwritingMissing (parentVDev cls : Nat)
  | vdevOverwritingLineage (childVDev parentVDev : Nat)
  | vdevResolving (prop parentVDev childVDev : Nat)
  | featureOverwriting (prop childVDev parentVDev : Nat)
  | deviceOverwritingNameNotInherited (dev parentDev : Nat)
  | deviceOverwritingInheritedNameMismatch (dev parentDev : Nat)
  | deviceNotImplemented (parentDev cls : Nat)
  | multipleConnectionDefs (d1 : Nat) (n1 : Option Nat) (d2 : Nat) (n2 : Option Nat)
deriving DecidableEq, Repr

/-- The static declaration data consumed by `FeatureController`: feature
classes, VDevice classes and feature-instance classes are `Nat` identifiers;
`0` stands for the root `Feature` class.  `featureBases c` lists, in
`__bases__` order, the base classes of `c` that are `Feature` subclasses
(possibly including the root `0`); `localVDevices` gives the inner `VDevice`
classes declared directly on a feature class; `vdevName` is a VDevice class's
`__name__`; `vdevIsSub` the `issubclass` relation on VDevice classes;
`vdevFeatures` the result of
`VDeviceController.get_all_instantiated_feature_objects` (attribute name ×
class of the instantiated feature); `featIsInstance f g` the `isinstance`
check of an instance of feature class `f` against feature class `g`;
`methodVar` the method-based `@for_vdevice` registry
(method name → implementation callable → VDevice → connection list). -/
structure FeatureHierarchy where
  featureBases : Nat → List Nat
  localVDevices : Nat → List Nat
  vdevName : Nat → Nat
  vdevIsSub : Nat → Nat → Bool
  vdevFeatures : Nat → List (Nat × Nat)
  featIsInstance : Nat → Nat → Bool
  methodVar : Nat → Option (List (Nat × List (Nat × List (Nat × List Connection))))

mutual

/-- Embedding of `FeatureController.get_inner_vdevice_classes` (fuel-indexed:
the Python recursion over the class hierarchy terminates because base classes
precede subclasses; any fuel larger than the class identifier is sufficient
when bases have smaller identifiers).  Despite its docstring, when the
related class declares no inner VDevice the source falls back to the first
`Feature` base class's absolute VDevices. -/
def getInnerVDeviceClassesAux (H : FeatureHierarchy) (fuel c : Nat) : List Nat :=
  match fuel with
  | 0 => []
  | f + 1 =>
    let filtered := H.localVDevices c
    if filtered.length = 0 then
      match H.featureBases c with
      | [] => filtered
      | b :: _ => if b = 0 then [] else getAbsInnerVDeviceClassesAux H f b
    else filtered
termination_by 2 * fuel
decreasing_by
  all_goals simp_wf
  all_goals omega

/-- Embedding of `FeatureController.get_abs_inner_vdevice_classes`. -/
def getAbsInnerVDeviceClassesAux (H : FeatureHierarchy) (fuel c : Nat) : List Nat :=
  match fuel with
  | 0 => []
  | f + 1 =>
    let filtered := getInnerVDeviceClassesAux H (f + 1) c
    if filtered.length = 0 then
      match H.featureBases c with
      | [] => filtered
      | b :: _ => if b = 0 then [] else getAbsInnerVDeviceClassesAux H f b
    else filtered
termination_by 2 * fuel + 1
decreasing_by
  all_goals simp_wf
  all_goals omega

end

/-- `FeatureController.get_inner_vdevice_classes` with sufficient fuel. -/
def get_inner_vdevice_classes (H : FeatureHierarchy) (c : Nat) : List Nat :=
  getInnerVDeviceClassesAux H (c + 1) c

/-- `FeatureController.get_abs_inner_vdevice_classes` with sufficient fuel. -/
def get_abs_inner_vdevice_classes (H : FeatureHierarchy) (c : Nat) : List Nat :=
  getAbsInnerVDeviceClassesAux H (c + 1) c

/-- One step of the candidate collection of
`FeatureController.get_method_variation`: a newly matching single is added
for its implementation method, or combined via `based_on` with the
connection already recorded for that method. -/
def addCandidate (acc : List (Nat × Connection)) (m : Nat) (s : Connection) :
    List (Nat × Connection) :=
  match alookup acc m with
  | none => acc ++ [(m, s)]
  | some cnn => aset acc m (Connection.based_on cnn s)

/-- Embedding of the candidate-collection loop of
`FeatureController.get_method_variation` (source lines 166–181): for every
registered implementation of the method that lists the VDevice, every single
of its connection list that is contained (metadata ignored) in
`with_connection` makes the implementation a candidate, its matching singles
combined via `based_on`. -/
def collectCandidates (withConn : Connection) (vdev : Nat)
    (impls : List (Nat × List (Nat × List Connection))) : List (Nat × Connection) :=
  impls.foldl
    (fun acc p =>
      match alookup p.2 vdev with
      | none => acc
      | some cnns =>
        let singles := cnns.foldl (fun l cnn => l ++ cnn.get_singles) []
        singles.foldl
          (fun acc2 s =>
            if s.contained_in withConn true then addCandidate acc2 p.1 s else acc2)
          acc)
    []

/-- The `can_be_deleted` check of the elimination loop: a candidate
connection may be removed when (skipping connections equal to it) it is
`contained_in` every other candidate's connection. -/
def deletableIn (all : List (Nat × Connection)) (cnn : Connection) : Bool :=
  all.all (fun q => cnn == q.2 || cnn.contained_in q.2 false)

/-- First candidate (in dict order) that `can_be_deleted`. -/
def findDeletable (full : List (Nat × Connection)) :
    List (Nat × Connection) → Option Nat
  | [] => none
  | p :: rest => if deletableIn full p.2 then some p.1 else findDeletable full rest

/-- One pass of the elimination `while` loop: delete the first deletable
candidate and restart, report `none` when no candidate was deleted. -/
def deleteFirstDeletable (all : List (Nat × Connection)) :
    Option (List (Nat × Connection)) :=
  match findDeletable all all with
  | none => none
  | some k => some (eraseKey all k)

/-- The elimination `while` loop of `get_method_variation` (source lines
204–219): repeat single deletions until no deletion happens or one candidate
remains.  Each deletion shrinks the list, so fuel equal to the initial
length always reaches the fixed point. -/
def eliminateLoop : Nat → List (Nat × Connection) → List (Nat × Connection)
  | 0, all => all
  | fuel + 1, all =>
    match deleteFirstDeletable all with
    | none => all
    | some all2 => if all2.length = 1 then all2 else eliminateLoop fuel all2

/-- Embedding of the parent-class search loop of `get_method_variation`
(source lines 185–198): try every `Feature` base in order with
`ignore_no_findings=True`, return the first truthy result; when the loop
finds nothing, raise unless `ignore_no_findings`. -/
def parentSearchList (recFn : Nat → Except BErr (Option Nat))
    (c methName vdev : Nat) (ignoreNoFindings : Bool) :
    List Nat → Except BErr (Option Nat)
  | [] =>
    if ignoreNoFindings then .ok none
    else .error (.unclearNoVariation c methName vdev)
  | b :: rest =>
    if b ≠ 0 then
      match recFn b with
      | .error e => .error e
      | .ok (some m) => .ok (some m)
      | .ok none => parentSearchList recFn c methName vdev ignoreNoFindings rest
    else parentSearchList recFn c methName vdev ignoreNoFindings rest

/-- Embedding of `FeatureController.get_method_variation` (fuel-indexed, the
input connection already combined): look up the method-based registry
(`ValueError` when absent or when the method name is unknown), collect the
candidates, search the parent chain when there are none, return a unique
candidate directly, and otherwise run the elimination loop, raising
`UnclearMethodVariationError` when more than one candidate survives. -/
def getMethodVariationAux (H : FeatureHierarchy) :
    Nat → Nat → Nat → Nat → Connection → Bool → Except BErr (Option Nat)
  | 0, _, _, _, _, _ => .error .fuelExhausted
  | fuel + 1, c, methName, vdev, withConn, ignoreNoFindings =>
    match H.methodVar c with
    | none => .error (.valueError 0)
    | some registry =>
      match alookup registry methName with
      | none => .error (.valueError 1)
      | some impls =>
        match collectCandidates withConn vdev impls with
        | [] =>
          parentSearchList
            (fun b => getMethodVariationAux H fuel b methName vdev withConn true)
            c methName vdev ignoreNoFindings (H.featureBases c)
        | [p] => .ok (some p.1)
        | _ =>
          let cands := collectCandidates withConn vdev impls
          let remaining := eliminateLoop cands.length cands
          if 1 < remaining.length then .error (.unclearAmbiguous c methName vdev)
          else
            match remaining with
            | [] => .error (.valueError 2)
            | p :: _ => .ok (some p.1)

/-- `FeatureController.get_method_variation` with sufficient fuel. -/
def get_method_variation (H : FeatureHierarchy) (c methName vdev : Nat)
    (withConn : Connection) (ignoreNoFindings : Bool) : Except BErr (Option Nat) :=
  getMethodVariationAux H (c + 1) c methName vdev withConn ignoreNoFindings

/-- A chain of eliminations: each step removes one candidate `(k, cnn)`
whose connection is `contained_in` every other remaining candidate's
connection. -/
inductive ElimChain : List (Nat × Connection) → List (Nat × Connection) → Prop where
  | refl (l : List (Nat × Connection)) : ElimChain l l
  | step {l l2 : List (Nat × Connection)} (k : Nat) (cnn : Connection)
      (hmem : (k, cnn) ∈ l)
      (hcont : ∀ q ∈ l, Connection.contained_in cnn q.2 false = true)
      (hrest : ElimChain (eraseKey l k) l2) : ElimChain l l2

/-- Embedding of the next-feature-parent search of
`FeatureController.validate_inner_vdevice_inheritance` (source lines
310–317): walk the bases, raising `MultiInheritanceError` on a second
`Feature` base that is not the root. -/
def nextFeatureParentLoop (c : Nat) : List Nat → Option Nat → Except BErr (Option Nat)
  | [], acc => .ok acc
  | b :: rest, acc =>
    if b ≠ 0 then
      match acc with
      | some _ => .error (.multiInheritance c)
      | none => nextFeatureParentLoop c rest (some b)
    else nextFeatureParentLoop c rest acc

/-- The next `Feature` parent of a feature class, or a multi-inheritance
error. -/
def nextFeatureParent (H : FeatureHierarchy) (c : Nat) : Except BErr (Option Nat) :=
  nextFeatureParentLoop c (H.featureBases c) none

/-- The embedding of `direct_namings.index(...)`: the first VDevice class in
the list carrying the given `__name__`. -/
def firstWithName (H : FeatureHierarchy) (n : Nat) : List Nat → Option Nat
  | [] => none
  | d :: rest => if H.vdevName d = n then some d else firstWithName H n rest

/-- Embedding of the feature-property check of
`validate_inner_vdevice_inheritance` (source lines 353–370): every
instantiated feature attribute of the parent VDevice must exist on the child
VDevice under the same name (`VDeviceResolvingError` otherwise) with an
instance of the same or a subtype feature class (`FeatureOverwritingError`
otherwise). -/
def checkVDevFeatureProps (H : FeatureHierarchy) (childV parentV : Nat)
    (childFeats : List (Nat × Nat)) : List (Nat × Nat) → Except BErr Unit
  | [] => .ok ()
  | q :: rest =>
    match alookup childFeats q.1 with
    | none => .error (.vdevResolving q.1 parentV childV)
    | some f =>
      if H.featIsInstance f q.2 then
        checkVDevFeatureProps H childV parentV childFeats rest
      else .error (.featureOverwriting q.1 childV parentV)

/-- Embedding of the per-parent-VDevice check of
`validate_inner_vdevice_inheritance` (source lines 327–370): the parent
VDevice's name must appear among the direct VDevices
(`VDeviceOverwritingError`, missing-override message, otherwise), the
same-named direct VDevice must be its subclass (`VDeviceOverwritingError`,
wrong-lineage message, otherwise), and the feature attributes must be
compatible. -/
def checkOneParentVDevice (H : FeatureHierarchy) (c : Nat) (directs : List Nat)
    (pv : Nat) : Except BErr Unit :=
  match firstWithName H (H.vdevName pv) directs with
  | none => .error (.vdevOverwritingMissing pv c)
  | some child =>
    if H.vdevIsSub child pv then
      checkVDevFeatureProps H child pv (H.vdevFeatures child) (H.vdevFeatures pv)
    else .error (.vdevOverwritingLineage child pv)

/-- The loop over all parent VDevices. -/
def checkParentVDevices (H : FeatureHierarchy) (c : Nat) (directs : List Nat) :
    List Nat → Except BErr Unit
  | [] => .ok ()
  | pv :: rest =>
    match checkOneParentVDevice H c directs pv with
    | .error e => .error e
    | .ok _ => checkParentVDevices H c directs rest

/-- Embedding of `FeatureController.validate_inner_vdevice_inheritance`
(fuel-indexed): nothing is checked when the feature level declares no direct
VDevices; otherwise the single `Feature` parent is determined (failing fast
on multi-inheritance), the parent is validated first, and then every
absolute parent VDevice is checked against the direct VDevices. -/
def validateInnerVDeviceInheritanceAux (H : FeatureHierarchy) :
    Nat → Nat → Except BErr Unit
  | 0, _ => .error .fuelExhausted
  | fuel + 1, c =>
    let directs := get_inner_vdevice_classes H c
    if directs.length ≠ 0 then
      match nextFeatureParent H c with
      | .error e => .error e
      | .ok none => .ok ()
      | .ok (some p) =>
        match validateInnerVDeviceInheritanceAux H fuel p with
        | .error e => .error e
        | .ok _ => checkParentVDevices H c directs (get_abs_inner_vdevice_classes H p)
    else .ok ()

/-- `FeatureController.validate_inner_vdevice_inheritance` with sufficient
fuel. -/
def validate_inner_vdevice_inheritance (H : FeatureHierarchy) (c : Nat) :
    Except BErr Unit :=
  validateInnerVDeviceInheritanceAux H (c + 1) c

/-- Endpoint-free metadata (a pure type template). -/
def emptyMeta : ConnectionMetadata :=
  { from_device := none, from_node_name := none, to_device := none,
    to_node_name := none, bidirectional := true }

/-- Concrete method-variation registry: method `0` has implementation `10`
bound to VDevice `0` over the generic kind `[5]` and implementation `11`
bound to VDevice `0` over the more specific kind `[5, 6]`. -/
def c1Impls : List (Nat × List (Nat × List Connection)) :=
  [(10, [(0, [⟨[[5]], emptyMeta⟩])]), (11, [(0, [⟨[[5, 6]], emptyMeta⟩])])]

/-- Registry table for the concrete hierarchy below. -/
def c1Registry : List (Nat × List (Nat × List (Nat × List Connection))) :=
  [(0, c1Impls)]

/-- A concrete feature hierarchy whose class `1` carries the registry
`c1Registry`. -/
def c1Hierarchy : FeatureHierarchy :=
  { featureBases := fun _ => []
    localVDevices := fun _ => []
    vdevName := fun _ => 0
    vdevIsSub := fun _ _ => false
    vdevFeatures := fun _ => []
    featIsInstance := fun _ _ => false
    methodVar := fun c => if c = 1 then some c1Registry else none }

/-- The concrete in-effect connection of kind `[5, 6]`. -/
def c1Conn : Connection := ⟨[[5, 6]], emptyMeta⟩

/-- A concrete feature hierarchy for the parent-walk claim: feature class 2
has the single parent 1, registers method 7 with no implementations, and
feature class 4 declares a local VDevice while having the two `Feature`
parents 1 and 2. -/
def c3Hierarchy : FeatureHierarchy :=
  { featureBases := fun x =>
      if x = 1 then [0] else if x = 2 then [1] else if x = 4 then [1, 2] else []
    localVDevices := fun x => if x = 4 then [40] else []
    vdevName := fun _ => 0
    vdevIsSub := fun _ _ => false
    vdevFeatures := fun _ => []
    featIsInstance := fun _ _ => false
    methodVar := fun x => if x = 2 then some [(7, [])] else none }

/-- A concrete feature hierarchy for the VDevice-inheritance claim: feature
class 1 declares VDevice 11 (name 5, feature attribute 3 of class 100),
feature class 2 overrides it with VDevice 21 (same name 5, subclass of 11,
attribute 3 instantiating the feature subclass 101). -/
def c4Hierarchy : FeatureHierarchy :=
  { featureBases := fun x => if x = 1 then [0] else if x = 2 then [1] else []
    localVDevices := fun x => if x = 1 then [11] else if x = 2 then [21] else []
    vdevName := fun _ => 5
    vdevIsSub := fun d pv => d = 21 && pv = 11
    vdevFeatures := fun v =>
      if v = 11 then [(3, 100)] else if v = 21 then [(3, 101)] else []
    featIsInstance := fun f g => f = 101 && g = 100
    methodVar := fun _ => none }

/-- The static declaration data consumed by
`NormalScenarioSetupController`: scenario/setup classes and device classes
are `Nat` identifiers; `0` stands for the root `Scenario`/`Setup` class.
`scBases c` lists, in `__bases__` order, the bases of `c` that are
`Scenario`/`Setup` subclasses (possibly the root `0`); `localDevices` the
inner `Device` classes declared directly in a class (the result of
`get_all_inner_device_classes`); `devName` a device class's `__name__`;
`devIsSub` the `issubclass` relation on device classes; `connections` the
per-device `DeviceController.connections` table (node name → connection
list); `absoluteConnections` the per-device
`DeviceController.absolute_connections` table (other device → connection
list). -/
structure ScenarioHierarchy where
  scBases : Nat → List Nat
  localDevices : Nat → List Nat
  devName : Nat → Nat
  devIsSub : Nat → Nat → Bool
  connections : Nat → List (Nat × List Connection)
  absoluteConnections : Nat → List (Nat × List Connection)

/-- Embedding of the single-parent searches of
`NormalScenarioSetupController` (source lines 89–95 and 142–150): walk the
`Scenario`/`Setup` bases, raising `MultiInheritanceError` on a second one. -/
def findSingleScBaseLoop (c : Nat) : List Nat → Option Nat → Except BErr (Option Nat)
  | [], acc => .ok acc
  | b :: rest, acc =>
    match acc with
    | some _ => .error (.multiInheritance c)
    | none => findSingleScBaseLoop c rest (some b)

/-- Embedding of
`NormalScenarioSetupController.get_all_abs_inner_device_classes`
(fuel-indexed): the locally declared devices, or the absolute devices of the
single parent (empty at the root). -/
def getAllAbsInnerDeviceClassesAux (H : ScenarioHierarchy) (fuel c : Nat) :
    Except BErr (List Nat) :=
  match fuel with
  | 0 => .error .fuelExhausted
  | f + 1 =>
    let clsDevices := H.localDevices c
    if clsDevices.length = 0 then
      match findSingleScBaseLoop c (H.scBases c) none with
      | .error e => .error e
      | .ok none => .error (.valueError 3)
      | .ok (some b) =>
        if b = 0 then .ok []
        else getAllAbsInnerDeviceClassesAux H f b
    else .ok clsDevices

/-- `get_all_abs_inner_device_classes` with sufficient fuel. -/
def get_all_abs_inner_device_classes (H : ScenarioHierarchy) (c : Nat) :
    Except BErr (List Nat) :=
  getAllAbsInnerDeviceClassesAux H (c + 1) c

/-- Embedding of `NormalScenarioSetupController.get_all_connections`: the
connections of the *locally declared* device classes only (no parent walk,
no de-duplication). -/
def get_all_connections (H : ScenarioHierarchy) (c : Nat) : List Connection :=
  (H.localDevices c).foldl
    (fun acc d => (H.connections d).foldl (fun acc2 p => acc2 ++ p.2) acc) []

/-- The `if cur_cnn not in all_connections: append` accumulation of
`get_all_abs_connections`. -/
def dedupAppend (acc : List Connection) (l : List Connection) : List Connection :=
  l.foldl (fun a cnn => if cnn ∈ a then a else a ++ [cnn]) acc

/-- The aggregation body of `get_all_abs_connections` over a device list. -/
def collectAbsConnections (H : ScenarioHierarchy) (devs : List Nat) : List Connection :=
  devs.foldl
    (fun acc d =>
      (H.absoluteConnections d).foldl (fun acc2 p => dedupAppend acc2 p.2) acc) []

/-- Embedding of `NormalScenarioSetupController.get_all_abs_connections`:
the de-duplicated absolute connections of the absolute device classes. -/
def get_all_abs_connections (H : ScenarioHierarchy) (c : Nat) :
    Except BErr (List Connection) :=
  match get_all_abs_inner_device_classes H c with
  | .error e => .error e
  | .ok devs => .ok (collectAbsConnections H devs)

/-- The first absolute parent device carrying the given `__name__`
(the embedding of `abs_parent_devices_as_names.index(...)`). -/
def firstDevWithName (H : ScenarioHierarchy) (n : Nat) : List Nat → Option Nat
  | [] => none
  | p :: rest => if H.devName p = n then some p else firstDevWithName H n rest

/-- Embedding of the inheritance-parent search of `validate_inheritance`
(source lines 173–183): the unique absolute parent device that the device
subclasses, raising `MultiInheritanceError` on a second one. -/
def inheritanceParentLoop (H : ScenarioHierarchy) (d : Nat) :
    List Nat → Option Nat → Except BErr (Option Nat)
  | [], acc => .ok acc
  | pdev :: rest, acc =>
    if H.devIsSub d pdev then
      match acc with
      | some _ => .error (.multiInheritance d)
      | none => inheritanceParentLoop H d rest (some pdev)
    else inheritanceParentLoop H d rest acc

/-- Embedding of the four-way per-device check of `validate_inheritance`
(source lines 165–203): naming parent and inheritance parent must both be
present and equal, or both absent; a sole inheritance parent or a sole
naming parent raises one of the two distinct `DeviceOverwritingError`
messages.  (A present naming parent together with a *different* present
inheritance parent falls through all branches of the source's `elif` chain
without an error.) -/
def checkDeviceOverwriting (H : ScenarioHierarchy) (absParents : List Nat)
    (d : Nat) : Except BErr Unit :=
  let namingPar := firstDevWithName H (H.devName d) absParents
  match inheritanceParentLoop H d absParents none with
  | .error e => .error e
  | .ok inhPar =>
    if namingPar = inhPar ∧ inhPar ≠ none then .ok ()
    else if namingPar = none ∧ inhPar = none then .ok ()
    else if namingPar = none then
      .error (.deviceOverwritingInheritedNameMismatch d (inhPar.getD 0))
    else if inhPar = none then
      .error (.deviceOverwritingNameNotInherited d (namingPar.getD 0))
    else .ok ()

/-- The loop of the per-device check over all locally declared devices. -/
def checkDevicesLoop (H : ScenarioHierarchy) (absParents : List Nat) :
    List Nat → Except BErr Unit
  | [] => .ok ()
  | d :: rest =>
    match checkDeviceOverwriting H absParents d with
    | .error e => .error e
    | .ok _ => checkDevicesLoop H absParents rest

/-- Embedding of the parent-coverage loop of `validate_inheritance` (source
lines 205–215): every absolute parent device must be subclassed by some
local device. -/
def coverageLoop (H : ScenarioHierarchy) (c : Nat) (devices : List Nat) :
    List Nat → Except BErr Unit
  | [] => .ok ()
  | pdev :: rest =>
    if devices.any (fun d => H.devIsSub d pdev) then coverageLoop H c devices rest
    else .error (.deviceNotImplemented pdev c)

/-- Embedding of `NormalScenarioSetupController.validate_inheritance`
(fuel-indexed): single-parent check, early return at the root, the absolute
parent devices (computed before the own-devices emptiness check), the
per-device four-way check, the coverage check, and the recursive validation
of the parent. -/
def validateInheritanceAux (H : ScenarioHierarchy) (fuel c : Nat) :
    Except BErr Unit :=
  match fuel with
  | 0 => .error .fuelExhausted
  | f + 1 =>
    match findSingleScBaseLoop c (H.scBases c) none with
    | .error e => .error e
    | .ok none => .error (.valueError 4)
    | .ok (some parent) =>
      if parent = 0 then .ok ()
      else
        let devices := H.localDevices c
        match get_all_abs_inner_device_classes H parent with
        | .error e => .error e
        | .ok absParents =>
          if devices.length = 0 then .ok ()
          else
            match checkDevicesLoop H absParents devices with
            | .error e => .error e
            | .ok _ =>
              match coverageLoop H c devices absParents with
              | .error e => .error e
              | .ok _ => validateInheritanceAux H f parent

/-- `NormalScenarioSetupController.validate_inheritance` with sufficient
fuel. -/
def validate_inheritance (H : ScenarioHierarchy) (c : Nat) : Except BErr Unit :=
  validateInheritanceAux H (c + 1) c

/-- The four-key tuple of one absolute connection as seen from
`cur_from_device` (source lines 281–286): when the iterating device is the
connection's FROM device the nodes are taken in order, otherwise swapped. -/
def tupleOf (d1 d2 : Nat) (cnn : Connection) : Nat × Option Nat × Nat × Option Nat :=
  if (some d1 : Option Nat) = cnn.metadata.from_device then
    (d1, cnn.metadata.from_node_name, d2, cnn.metadata.to_node_name)
  else (d1, cnn.metadata.to_node_name, d2, cnn.metadata.from_node_name)

/-- All `(four-key tuple, connection)` pairs in the iteration order of
`get_absolute_single_connections`. -/
def allTuples (H : ScenarioHierarchy) (devs : List Nat) :
    List ((Nat × Option Nat × Nat × Option Nat) × Connection) :=
  (devs.map (fun d1 =>
    ((H.absoluteConnections d1).map (fun p =>
      p.2.map (fun cnn => (tupleOf d1 p.1 cnn, cnn)))).flatten)).flatten

/-- The nested `from_device → from_node → to_device → to_node → [singles]`
dictionary of `get_absolute_single_connections`. -/
abbrev SingleTable :=
  List (Nat × List (Option Nat × List (Nat × List (Option Nat × List Connection))))

/-- Access `result[dev1][node1][dev2][node2]`, with missing levels read as
empty dictionaries. -/
def lookup4 (t : SingleTable) (k : Nat × Option Nat × Nat × Option Nat) :
    Option (List Connection) :=
  alookup ((alookup ((alookup ((alookup t k.1).getD []) k.2.1).getD [])
    k.2.2.1).getD []) k.2.2.2

/-- One insertion step of `get_absolute_single_connections` (source lines
287–306): create the missing dictionary levels, raise on a duplicate
four-key tuple, and otherwise store the connection's singles. -/
def insert4 (t : SingleTable) (k : Nat × Option Nat × Nat × Option Nat)
    (cnn : Connection) : Except BErr SingleTable :=
  match lookup4 t k with
  | some _ => .error (.multipleConnectionDefs k.1 k.2.1 k.2.2.1 k.2.2.2)
  | none =>
    .ok (aset t k.1
      (aset ((alookup t k.1).getD []) k.2.1
        (aset ((alookup ((alookup t k.1).getD []) k.2.1).getD []) k.2.2.1
          (aset ((alookup ((alookup ((alookup t k.1).getD []) k.2.1).getD [])
              k.2.2.1).getD [])
            k.2.2.2 cnn.get_singles))))

/-- The triple-loop of `get_absolute_single_connections` flattened over the
`(tuple, connection)` pairs in iteration order. -/
def buildTable :
    List ((Nat × Option Nat × Nat × Option Nat) × Connection) → SingleTable →
      Except BErr SingleTable
  | [], t => .ok t
  | p :: rest, t =>
    match insert4 t p.1 p.2 with
    | .error e => .error e
    | .ok t2 => buildTable rest t2

/-- Embedding of
`NormalScenarioSetupController.get_absolute_single_connections`. -/
def get_absolute_single_connections (H : ScenarioHierarchy) (c : Nat) :
    Except BErr SingleTable :=
  match get_all_abs_inner_device_classes H c with
  | .error e => .error e
  | .ok devs => buildTable (allTuples H devs) []

/-- A concrete scenario hierarchy with crossed overriding: the parent class 1
declares device 101 (name 1) and device 102 (name 2); the child class 2
declares device 201 (name 1, subclass of 102) and device 202 (name 2,
subclass of 101) — every child device reuses the name of one parent device
while subclassing the *other*. -/
def c5Hierarchy : ScenarioHierarchy :=
  { scBases := fun x => if x = 1 then [0] else if x = 2 then [1] else []
    localDevices := fun x =>
      if x = 1 then [101, 102] else if x = 2 then [201, 202] else []
    devName := fun d =>
      if d = 101 then 1 else if d = 102 then 2 else
        if d = 201 then 1 else if d = 202 then 2 else 0
    devIsSub := fun d p => (d = 201 && p = 102) || (d = 202 && p = 101)
    connections := fun _ => []
    absoluteConnections := fun _ => [] }

/-- A concrete fully-endpointed connection of kind `[5]` from device 5 node
10 to device 6 node 20. -/
def c7Conn : Connection :=
  { kinds := [[5]]
    metadata :=
      { from_device := some 5, from_node_name := some 10, to_device := some 6,
        to_node_name := some 20, bidirectional := true } }

/-- A concrete scenario hierarchy for the single-connection table: class 1
declares devices 5 and 6 with one absolute connection `c7Conn` between
them. -/
def c7Hierarchy : ScenarioHierarchy :=
  { scBases := fun x => if x = 1 then [0] else []
    localDevices := fun x => if x = 1 then [5, 6] else []
    devName := fun _ => 0
    devIsSub := fun _ _ => false
    connections := fun _ => []
    absoluteConnections := fun d => if d = 5 then [(6, [c7Conn])] else [] }

/-- A concrete scenario hierarchy for the aggregation claim: class 1
declares device 5 (whose `connections` table lists `c7Conn` under two node
names and whose `absoluteConnections` lists it once); class 2 inherits from
class 1 and declares no devices of its own. -/
def c8Hierarchy : ScenarioHierarchy :=
  { scBases := fun x => if x = 1 then [0] else if x = 2 then [1] else []
    localDevices := fun x => if x = 1 then [5] else []
    devName := fun _ => 0
    devIsSub := fun _ _ => false
    connections := fun d => if d = 5 then [(0, [c7Conn]), (1, [c7Conn])] else []
    absoluteConnections := fun d => if d = 5 then [(6, [c7Conn])] else [] }

section MetadataLemmas

open ConnectionMetadata

/-- `check_same` as a proposition. -/
lemma check_same_iff (a b : ConnectionMetadata) :
    check_same a b = true ↔
      a.from_device = b.from_device ∧ a.from_node_name = b.from_node_name ∧
        a.to_device = b.to_device ∧ a.to_node_name = b.to_node_name := by
  simp [check_same, Bool.and_eq_true, and_assoc]

/-- `check_twisted` as a proposition. -/
lemma check_twisted_iff (a b : ConnectionMetadata) :
    check_twisted a b = true ↔
      a.from_device = b.to_device ∧ a.from_node_name = b.to_node_name ∧
        a.to_device = b.from_device ∧ a.to_node_name = b.from_node_name := by
  simp [check_twisted, Bool.and_eq_true, and_assoc]

/-- Characterisation of `compare_with` by the three source branches. -/
lemma compare_with_iff (a b : ConnectionMetadata) (allow : Bool) :
    compare_with a b allow = true ↔
      (a.bidirectional = true ∧ b.bidirectional = true ∧
        (check_same a b = true ∨ check_twisted a b = true)) ∨
      (a.bidirectional = false ∧ b.bidirectional = false ∧ check_same a b = true) ∨
      (allow = true ∧ a.bidirectional ≠ b.bidirectional ∧
        (check_same a b = true ∨ check_twisted a b = true)) := by
  rcases a with ⟨afd, afn, atd, atn, ab⟩
  rcases b with ⟨bfd, bfn, btd, btn, bb⟩
  cases ab <;> cases bb <;> cases allow <;>
    simp [compare_with]

lemma same_trans {a b c : ConnectionMetadata}
    (h1 : check_same a b = true) (h2 : check_same b c = true) :
    check_same a c = true := by
  rw [check_same_iff] at *
  obtain ⟨e1, e2, e3, e4⟩ := h1
  obtain ⟨f1, f2, f3, f4⟩ := h2
  exact ⟨e1.trans f1, e2.trans f2, e3.trans f3, e4.trans f4⟩

lemma same_twisted_trans {a b c : ConnectionMetadata}
    (h1 : check_same a b = true) (h2 : check_twisted b c = true) :
    check_twisted a c = true := by
  rw [check_same_iff] at h1
  rw [check_twisted_iff] at *
  obtain ⟨e1, e2, e3, e4⟩ := h1
  obtain ⟨f1, f2, f3, f4⟩ := h2
  exact ⟨e1.trans f1, e2.trans f2, e3.trans f3, e4.trans f4⟩

lemma twisted_same_trans {a b c : ConnectionMetadata}
    (h1 : check_twisted a b = true) (h2 : check_same b c = true) :
    check_twisted a c = true := by
  rw [check_same_iff] at h2
  rw [check_twisted_iff] at *
  obtain ⟨e1, e2, e3, e4⟩ := h1
  obtain ⟨f1, f2, f3, f4⟩ := h2
  exact ⟨e1.trans f3, e2.trans f4, e3.trans f1, e4.trans f2⟩

lemma twisted_twisted_trans {a b c : ConnectionMetadata}
    (h1 : check_twisted a b = true) (h2 : check_twisted b c = true) :
    check_same a c = true := by
  rw [check_same_iff]
  rw [check_twisted_iff] at *
  obtain ⟨e1, e2, e3, e4⟩ := h1
  obtain ⟨f1, f2, f3, f4⟩ := h2
  exact ⟨e1.trans f3, e2.trans f4, e3.trans f1, e4.trans f2⟩

/-- Composition of the same/twisted endpoint relations. -/
lemma same_or_twisted_trans {a b c : ConnectionMetadata}
    (h1 : check_same a b = true ∨ check_twisted a b = true)
    (h2 : check_same b c = true ∨ check_twisted b c = true) :
    check_same a c = true ∨ check_twisted a c = true := by
  rcases h1 with h1 | h1 <;> rcases h2 with h2 | h2
  · exact Or.inl (same_trans h1 h2)
  · exact Or.inr (same_twisted_trans h1 h2)
  · exact Or.inr (twisted_same_trans h1 h2)
  · exact Or.inl (twisted_twisted_trans h1 h2)

/-- `contained_in` is reflexive. -/
lemma contained_in_refl (m : ConnectionMetadata) : contained_in m m = true := by
  have hs : check_same m m = true := by
    rw [check_same_iff]; exact ⟨rfl, rfl, rfl, rfl⟩
  rw [contained_in, compare_with_iff]
  rcases Bool.eq_false_or_eq_true m.bidirectional with h | h
  · exact Or.inl ⟨h, h, Or.inl hs⟩
  · exact Or.inr (Or.inl ⟨h, h, hs⟩)

end MetadataLemmas

end Balder

open Balder

/-- C2: for every pair of devices and attachment points, the bidirectional
metadata `(X@p, Y@q)` is `equal_with` the swapped bidirectional metadata
`(Y@q, X@p)`, and is not `equal_with` the unidirectional metadata
`(X@p, Y@q)`; however `contained_in` between the unidirectional and the
bidirectional version is NOT one-way: the source's mixed-directionality
branch of `__compare_with` is symmetric, so containment holds in both
directions (amended from the one-way claim). -/
theorem c2_metadata_reversal_law (x p y q : Nat) :
    ConnectionMetadata.equal_with (mkBidi x p y q) (mkBidi y q x p) = true ∧
    ConnectionMetadata.equal_with (mkBidi x p y q) (mkUni x p y q) = false ∧
    ConnectionMetadata.contained_in (mkUni x p y q) (mkBidi x p y q) = true ∧
    ConnectionMetadata.contained_in (mkBidi x p y q) (mkUni x p y q) = true := by
  refine ⟨?_, ?_, ?_, ?_⟩ <;>
    simp [mkBidi, mkUni, ConnectionMetadata.equal_with, ConnectionMetadata.contained_in,
      ConnectionMetadata.compare_with, ConnectionMetadata.check_same,
      ConnectionMetadata.check_twisted]

/-- C2 counterexample: the claim asserts that containment between the
unidirectional and the bidirectional variants holds only one way, but the
bidirectional metadata `(0@0, 1@1)` is `contained_in` the unidirectional
metadata `(0@0, 1@1)` as well. -/
theorem c2_counterexample :
    ConnectionMetadata.contained_in (mkBidi 0 0 1 1) (mkUni 0 0 1 1) = true := by
  decide

/-- C6 (amended): `contained_in` on connection metadata is transitive
whenever the middle element is unidirectional or at least one of the two
outer elements is bidirectional.  (In the remaining case — both outer
elements unidirectional with a bidirectional middle — transitivity can fail
by endpoint twisting, see the counterexample.) -/
theorem c6_contained_in_trans (a b c : ConnectionMetadata)
    (hside : b.bidirectional = false ∨ a.bidirectional = true ∨ c.bidirectional = true)
    (h1 : ConnectionMetadata.contained_in a b = true)
    (h2 : ConnectionMetadata.contained_in b c = true) :
    ConnectionMetadata.contained_in a c = true := by
  rw [ConnectionMetadata.contained_in, compare_with_iff] at h1 h2 ⊢
  have hst1 : a.check_same b = true ∨ a.check_twisted b = true := by
    rcases h1 with ⟨-, -, h⟩ | ⟨-, -, h⟩ | ⟨-, -, h⟩
    · exact h
    · exact Or.inl h
    · exact h
  have hst2 : b.check_same c = true ∨ b.check_twisted c = true := by
    rcases h2 with ⟨-, -, h⟩ | ⟨-, -, h⟩ | ⟨-, -, h⟩
    · exact h
    · exact Or.inl h
    · exact h
  have hst := same_or_twisted_trans hst1 hst2
  rcases Bool.eq_false_or_eq_true a.bidirectional with ha | ha <;>
    rcases Bool.eq_false_or_eq_true b.bidirectional with hb | hb <;>
      rcases Bool.eq_false_or_eq_true c.bidirectional with hc | hc
  · exact Or.inl ⟨ha, hc, hst⟩
  · exact Or.inr (Or.inr ⟨rfl, by rw [ha, hc]; simp, hst⟩)
  · exact Or.inl ⟨ha, hc, hst⟩
  · exact Or.inr (Or.inr ⟨rfl, by rw [ha, hc]; simp, hst⟩)
  · exact Or.inr (Or.inr ⟨rfl, by rw [ha, hc]; simp, hst⟩)
  · -- a uni, b bidi, c uni: excluded by the side condition
    rcases hside with h | h | h
    · rw [hb] at h; cases h
    · rw [ha] at h; cases h
    · rw [hc] at h; cases h
  · exact Or.inr (Or.inr ⟨rfl, by rw [ha, hc]; simp, hst⟩)
  · -- a uni, b uni, c uni: both hypotheses are in the plain-same branch
    refine Or.inr (Or.inl ⟨ha, hc, ?_⟩)
    have hs1 : a.check_same b = true := by
      rcases h1 with ⟨h, -⟩ | ⟨-, -, h⟩ | ⟨-, hne, -⟩
      · rw [ha] at h; cases h
      · exact h
      · rw [ha, hb] at hne; exact absurd rfl hne
    have hs2 : b.check_same c = true := by
      rcases h2 with ⟨h, -⟩ | ⟨-, -, h⟩ | ⟨-, hne, -⟩
      · rw [hb] at h; cases h
      · exact h
      · rw [hb, hc] at hne; exact absurd rfl hne
    exact same_trans hs1 hs2

/-- C6 witness: the amended transitivity applied to a concrete
unidirectional chain. -/
theorem c6_witness :
    ((mkUni 0 0 1 1).bidirectional = false ∨ (mkUni 0 0 1 1).bidirectional = true ∨
        (mkUni 0 0 1 1).bidirectional = true) ∧
      ConnectionMetadata.contained_in (mkUni 0 0 1 1) (mkUni 0 0 1 1) = true ∧
      ConnectionMetadata.contained_in (mkUni 0 0 1 1) (mkUni 0 0 1 1) = true ∧
      ConnectionMetadata.contained_in (mkUni 0 0 1 1) (mkUni 0 0 1 1) = true :=
  ⟨Or.inl (by decide), by decide, by decide,
    c6_contained_in_trans (mkUni 0 0 1 1) (mkUni 0 0 1 1) (mkUni 0 0 1 1)
      (Or.inl (by decide)) (by decide) (by decide)⟩

/-- C6 counterexample: containment is not transitive as claimed — the
unidirectional `(0@0, 1@1)` is contained in the bidirectional `(0@0, 1@1)`,
which is contained in the unidirectional `(1@1, 0@0)`, but the first is not
contained in the last. -/
theorem c6_counterexample :
    ConnectionMetadata.contained_in (mkUni 0 0 1 1) (mkBidi 0 0 1 1) = true ∧
      ConnectionMetadata.contained_in (mkBidi 0 0 1 1) (mkUni 1 1 0 0) = true ∧
      ConnectionMetadata.contained_in (mkUni 0 0 1 1) (mkUni 1 1 0 0) = false := by
  decide

/-- C9 (amended): the all-present-or-all-absent invariant holds for every
metadata object returned by the constructor, and the constructor succeeds
exactly when all four identity arguments are present or all are absent; the
mutators `set_from`/`set_to` however only validate argument types and do not
preserve the invariant (see the counterexample). -/
theorem c9_invariant_after_init (fd td fn tn : Option Nat) (b : Bool)
    (m : ConnectionMetadata)
    (h : ConnectionMetadata.mkInit fd td fn tn b = .ok m) :
    ConnectionMetadata.allOrNone m = true ∧
      ((∃ m', ConnectionMetadata.mkInit fd td fn tn b = .ok m') ↔
        ((fd = none ∧ td = none ∧ fn = none ∧ tn = none) ∨
          (fd ≠ none ∧ td ≠ none ∧ fn ≠ none ∧ tn ≠ none))) := by
  constructor
  · rw [ConnectionMetadata.mkInit] at h
    split at h
    · rename_i hcond
      cases h
      rcases hcond with ⟨h1, h2, h3, h4⟩ | ⟨h1, h2, h3, h4⟩
      · simp [ConnectionMetadata.allOrNone, ConnectionMetadata.set_from,
          ConnectionMetadata.set_to, h1, h2, h3, h4]
      · simp only [ConnectionMetadata.allOrNone, ConnectionMetadata.set_from,
          ConnectionMetadata.set_to]
        rw [Option.isSome_iff_ne_none.mpr h1, Option.isSome_iff_ne_none.mpr h2,
          Option.isSome_iff_ne_none.mpr h3, Option.isSome_iff_ne_none.mpr h4]
        simp
    · cases h
  · rw [ConnectionMetadata.mkInit]
    split
    · rename_i hcond
      exact ⟨fun _ => hcond, fun _ => ⟨_, rfl⟩⟩
    · rename_i hcond
      constructor
      · rintro ⟨m', hm'⟩; cases hm'
      · intro hc; exact absurd hc hcond

/-- C9 witness: the amended theorem applied to the fully-specified concrete
constructor call `(0@1, 0@1)`. -/
theorem c9_witness :
    ConnectionMetadata.mkInit (some 0) (some 0) (some 1) (some 1) true =
        .ok (mkBidi 0 1 0 1) ∧
      (ConnectionMetadata.allOrNone (mkBidi 0 1 0 1) = true ∧
        ((∃ m', ConnectionMetadata.mkInit (some 0) (some 0) (some 1) (some 1) true = .ok m') ↔
          (((some 0 : Option Nat) = none ∧ (some 0 : Option Nat) = none ∧
              (some 1 : Option Nat) = none ∧ (some 1 : Option Nat) = none) ∨
            ((some 0 : Option Nat) ≠ none ∧ (some 0 : Option Nat) ≠ none ∧
              (some 1 : Option Nat) ≠ none ∧ (some 1 : Option Nat) ≠ none)))) :=
  ⟨by rfl, c9_invariant_after_init (some 0) (some 0) (some 1) (some 1) true
    (mkBidi 0 1 0 1) (by rfl)⟩

/-- C9 counterexample: starting from a metadata object constructed with all
four identity fields present, a single `set_from None None` call leaves the
TO fields present and the FROM fields absent, so the claimed invariant does
not survive every operation. -/
theorem c9_counterexample :
    (ConnectionMetadata.mkInit (some 0) (some 1) (some 2) (some 3) true).map
        (fun m => ConnectionMetadata.allOrNone (m.set_from none none)) =
      .ok false := by
  rfl

namespace Balder

/-- The two VDevice getters agree at every fuel level: `get_abs` first calls
`get_inner`, whose parent fallback already computes exactly the parent walk
that `get_abs` would otherwise repeat. -/
lemma innerVDevAux_eq_absVDevAux (H : FeatureHierarchy) (fuel c : Nat) :
    getInnerVDeviceClassesAux H fuel c = getAbsInnerVDeviceClassesAux H fuel c := by
  cases fuel with
  | zero =>
    rw [getInnerVDeviceClassesAux, getAbsInnerVDeviceClassesAux]
  | succ f =>
    rw [getAbsInnerVDeviceClassesAux]
    by_cases hl : (H.localVDevices c).length = 0
    · rw [getInnerVDeviceClassesAux]
      simp only [hl, if_true, reduceIte]
      cases hb : H.featureBases c with
      | nil => simp
      | cons b bs =>
        by_cases h0 : b = 0
        · simp [h0]
        · simp only [h0, reduceIte]
          by_cases habs : (getAbsInnerVDeviceClassesAux H f b).length = 0
          · simp [habs]
          · simp [habs]
    · conv_lhs => rw [getInnerVDeviceClassesAux]
      simp only [hl, reduceIte]
      rw [getInnerVDeviceClassesAux]
      simp [hl]

/-- The absolute-VDevice walk does not depend on the fuel, as long as the
fuel exceeds the class identifier (base classes have smaller identifiers). -/
lemma absVDevAux_fuel_irrel (H : FeatureHierarchy)
    (hlt : ∀ x p, p ∈ H.featureBases x → p < x) :
    ∀ c f1 f2, c < f1 → c < f2 →
      getAbsInnerVDeviceClassesAux H f1 c = getAbsInnerVDeviceClassesAux H f2 c := by
  intro c
  induction c using Nat.strong_induction_on with
  | _ c ih =>
    intro f1 f2 h1 h2
    obtain ⟨a, rfl⟩ : ∃ a, f1 = a + 1 := ⟨f1 - 1, by omega⟩
    obtain ⟨b, rfl⟩ : ∃ b, f2 = b + 1 := ⟨f2 - 1, by omega⟩
    have hinner : getInnerVDeviceClassesAux H (a + 1) c =
        getInnerVDeviceClassesAux H (b + 1) c := by
      rw [getInnerVDeviceClassesAux]
      conv_rhs => rw [getInnerVDeviceClassesAux]
      by_cases hl : (H.localVDevices c).length = 0
      · simp only [hl, reduceIte]
        cases hb : H.featureBases c with
        | nil => rfl
        | cons p ps =>
          by_cases h0 : p = 0
          · simp [h0]
          · have hpc : p < c := hlt c p (by rw [hb]; exact List.mem_cons_self p ps)
            simp only [h0, reduceIte]
            exact ih p hpc a b (by omega) (by omega)
      · simp [hl]
    rw [getAbsInnerVDeviceClassesAux]
    conv_rhs => rw [getAbsInnerVDeviceClassesAux]
    rw [hinner]
    by_cases habs : (getInnerVDeviceClassesAux H (b + 1) c).length = 0
    · simp only [habs, reduceIte]
      cases hb : H.featureBases c with
      | nil => rfl
      | cons p ps =>
        by_cases h0 : p = 0
        · simp [h0]
        · have hpc : p < c := hlt c p (by rw [hb]; exact List.mem_cons_self p ps)
          simp only [h0, reduceIte]
          exact ih p hpc a b (by omega) (by omega)
    · simp [habs]

end Balder

/-- C10: `get_inner_vdevice_classes` and `get_abs_inner_vdevice_classes` are
extensionally equal, and in particular, for a feature class with no locally
declared VDevice whose first `Feature` base `b` is not the root,
`get_inner_vdevice_classes` returns the absolute VDevice classes of that
parent rather than an empty list. -/
theorem c10_inner_eq_abs_vdevice_classes (H : FeatureHierarchy) (c : Nat)
    (hlt : ∀ x p, p ∈ H.featureBases x → p < x) :
    get_inner_vdevice_classes H c = get_abs_inner_vdevice_classes H c ∧
      (∀ b bs, H.localVDevices c = [] → H.featureBases c = b :: bs → b ≠ 0 →
        get_inner_vdevice_classes H c = get_abs_inner_vdevice_classes H b) := by
  constructor
  · exact innerVDevAux_eq_absVDevAux H (c + 1) c
  · intro b bs hlocal hbases hb0
    have hbc : b < c := hlt c b (by rw [hbases]; exact List.mem_cons_self b bs)
    have hstep : get_inner_vdevice_classes H c = getAbsInnerVDeviceClassesAux H c b := by
      rw [get_inner_vdevice_classes, getInnerVDeviceClassesAux, hlocal, hbases]
      simp [hb0]
    rw [hstep, get_abs_inner_vdevice_classes]
    exact absVDevAux_fuel_irrel H hlt b c (b + 1) hbc (Nat.lt_succ_self b)

namespace Balder

lemma pathAncestorOrSelf_refl (k : List Nat) :
    Connection.pathAncestorOrSelf k k = true := by
  induction k with
  | nil => rfl
  | cons a as ih => simp [Connection.pathAncestorOrSelf, ih]

/-- Connection containment (metadata included) is reflexive. -/
lemma connection_contained_in_refl (c : Connection) :
    Connection.contained_in c c false = true := by
  rw [Connection.contained_in, Bool.and_eq_true]
  refine ⟨?_, ?_⟩
  · rw [List.all_eq_true]
    intro k hk
    rw [List.any_eq_true]
    exact ⟨k, hk, pathAncestorOrSelf_refl k⟩
  · simp [contained_in_refl c.metadata]

/-- A deletable candidate's connection is contained in every candidate's
connection (the source skips equal connections, but equality implies
containment by reflexivity). -/
lemma deletableIn_contained {all : List (Nat × Connection)} {cnn : Connection}
    (h : deletableIn all cnn = true) :
    ∀ q ∈ all, Connection.contained_in cnn q.2 false = true := by
  intro q hq
  rw [deletableIn, List.all_eq_true] at h
  have h2 := h q hq
  rw [Bool.or_eq_true] at h2
  rcases h2 with heq | hc
  · rw [beq_iff_eq] at heq
    rw [heq]
    exact connection_contained_in_refl q.2
  · exact hc

lemma findDeletable_mem {full : List (Nat × Connection)} :
    ∀ {l : List (Nat × Connection)} {k : Nat}, findDeletable full l = some k →
      ∃ cnn, (k, cnn) ∈ l ∧ deletableIn full cnn = true := by
  intro l
  induction l with
  | nil => intro k h; cases h
  | cons p rest ih =>
    intro k h
    rw [findDeletable] at h
    by_cases hd : deletableIn full p.2 = true
    · rw [if_pos hd] at h
      cases h
      exact ⟨p.2, by rw [Prod.mk.eta]; exact List.mem_cons_self p rest, hd⟩
    · rw [if_neg hd] at h
      obtain ⟨cnn, hmem, hdel⟩ := ih h
      exact ⟨cnn, List.mem_cons_of_mem p hmem, hdel⟩

lemma eraseKey_length {α β : Type} [DecidableEq α] :
    ∀ {l : List (α × β)} {k : α} {v : β}, (k, v) ∈ l →
      (eraseKey l k).length + 1 = l.length := by
  intro l
  induction l with
  | nil => intro k v h; cases h
  | cons p rest ih =>
    intro k v h
    rw [eraseKey]
    by_cases hk : p.1 = k
    · rw [if_pos hk, List.length_cons]
    · rw [if_neg hk]
      rcases List.mem_cons.1 h with heq | hmem
      · exact absurd (by rw [← heq] : p.1 = k) hk
      · rw [List.length_cons, List.length_cons, ih hmem]

/-- A successful deletion pass removes one candidate whose connection is
contained in every other candidate's connection, shrinking the list by one. -/
lemma deleteFirstDeletable_elim {all all2 : List (Nat × Connection)}
    (h : deleteFirstDeletable all = some all2) :
    (∃ k cnn, (k, cnn) ∈ all ∧
        (∀ q ∈ all, Connection.contained_in cnn q.2 false = true) ∧
        all2 = eraseKey all k) ∧
      all2.length + 1 = all.length := by
  rw [deleteFirstDeletable] at h
  cases hf : findDeletable all all with
  | none => rw [hf] at h; cases h
  | some k =>
    rw [hf] at h
    cases h
    obtain ⟨cnn, hmem, hdel⟩ := findDeletable_mem hf
    exact ⟨⟨k, cnn, hmem, deletableIn_contained hdel, rfl⟩, eraseKey_length hmem⟩

/-- Every run of the elimination loop is a chain of legitimate eliminations. -/
lemma elimChain_eliminateLoop :
    ∀ (fuel : Nat) (l : List (Nat × Connection)), ElimChain l (eliminateLoop fuel l) := by
  intro fuel
  induction fuel with
  | zero => intro l; exact ElimChain.refl l
  | succ fuel ih =>
    intro l
    cases hd : deleteFirstDeletable l with
    | none =>
      rw [eliminateLoop, hd]
      exact ElimChain.refl l
    | some l2 =>
      obtain ⟨⟨k, cnn, hmem, hcont, hl2⟩, -⟩ := deleteFirstDeletable_elim hd
      rw [eliminateLoop, hd]
      show ElimChain l (if l2.length = 1 then l2 else eliminateLoop fuel l2)
      subst hl2
      by_cases hlen : (eraseKey l k).length = 1
      · rw [if_pos hlen]
        exact ElimChain.step k cnn hmem hcont (ElimChain.refl _)
      · rw [if_neg hlen]
        exact ElimChain.step k cnn hmem hcont (ih _)

/-- With fuel at least the list length the elimination loop reaches a fixed
point: a single survivor, or a state with no further deletable candidate. -/
lemma eliminateLoop_fixed :
    ∀ (fuel : Nat) (l : List (Nat × Connection)), l.length ≤ fuel →
      (eliminateLoop fuel l).length = 1 ∨
        deleteFirstDeletable (eliminateLoop fuel l) = none := by
  intro fuel
  induction fuel with
  | zero =>
    intro l hl
    have h0 : l = [] := List.length_eq_zero.1 (Nat.le_zero.1 hl)
    subst h0
    exact Or.inr rfl
  | succ fuel ih =>
    intro l hl
    cases hd : deleteFirstDeletable l with
    | none =>
      rw [eliminateLoop, hd]
      exact Or.inr hd
    | some l2 =>
      obtain ⟨-, hlen⟩ := deleteFirstDeletable_elim hd
      rw [eliminateLoop, hd]
      show (if l2.length = 1 then l2 else eliminateLoop fuel l2).length = 1 ∨
        deleteFirstDeletable (if l2.length = 1 then l2 else eliminateLoop fuel l2) = none
      by_cases h1 : l2.length = 1
      · rw [if_pos h1]
        exact Or.inl h1
      · rw [if_neg h1]
        exact ih l2 (by omega)

end Balder

/-- C1: whenever `get_method_variation` finds more than one possible
variation (the candidates with their combined connections collected by
`collectCandidates`), the elimination loop performs a chain of removals,
each removing a candidate whose connection is `contained_in` every other
remaining candidate's connection, until a fixed point is reached; if exactly
one candidate remains it is returned, and if more than one survives the
function raises the `UnclearMethodVariationError` ambiguity error. -/
theorem c1_method_variation_elimination (H : FeatureHierarchy)
    (c methName vdev : Nat) (withConn : Connection) (ignore : Bool)
    (registry : List (Nat × List (Nat × List (Nat × List Connection))))
    (impls : List (Nat × List (Nat × List Connection)))
    (hreg : H.methodVar c = some registry)
    (himpls : alookup registry methName = some impls)
    (hmany : 1 < (collectCandidates withConn vdev impls).length) :
    ElimChain (collectCandidates withConn vdev impls)
        (eliminateLoop (collectCandidates withConn vdev impls).length
          (collectCandidates withConn vdev impls)) ∧
      ((eliminateLoop (collectCandidates withConn vdev impls).length
            (collectCandidates withConn vdev impls)).length = 1 ∨
        deleteFirstDeletable
            (eliminateLoop (collectCandidates withConn vdev impls).length
              (collectCandidates withConn vdev impls)) = none) ∧
      (∀ p rest,
        eliminateLoop (collectCandidates withConn vdev impls).length
            (collectCandidates withConn vdev impls) = p :: rest →
          (rest = [] →
            get_method_variation H c methName vdev withConn ignore = .ok (some p.1)) ∧
          (rest ≠ [] →
            get_method_variation H c methName vdev withConn ignore =
              .error (.unclearAmbiguous c methName vdev))) := by
  refine ⟨elimChain_eliminateLoop _ _, eliminateLoop_fixed _ _ le_rfl, ?_⟩
  intro p rest helim
  rcases hc : collectCandidates withConn vdev impls with - | ⟨q1, t⟩
  · rw [hc] at hmany; simp at hmany
  · rcases t with - | ⟨q2, t2⟩
    · rw [hc] at hmany; simp at hmany
    · rw [hc] at helim
      constructor
      · intro hrest
        subst hrest
        simp only [get_method_variation, getMethodVariationAux, hreg, himpls, hc, helim]
        simp
      · intro hrest
        have hlen2 : 1 < (p :: rest).length := by
          cases rest with
          | nil => exact absurd rfl hrest
          | cons r t3 => simp only [List.length_cons]; omega
        simp only [get_method_variation, getMethodVariationAux, hreg, himpls, hc, helim]
        rw [if_pos hlen2]

/-- C1 witness: the elimination theorem applied to the concrete hierarchy
`c1Hierarchy`, where method `0` has two candidates for VDevice `0` under the
concrete connection of kind `[5, 6]`. -/
theorem c1_witness :
    (c1Hierarchy.methodVar 1 = some c1Registry ∧
        alookup c1Registry 0 = some c1Impls ∧
        1 < (collectCandidates c1Conn 0 c1Impls).length) ∧
      (ElimChain (collectCandidates c1Conn 0 c1Impls)
          (eliminateLoop (collectCandidates c1Conn 0 c1Impls).length
            (collectCandidates c1Conn 0 c1Impls)) ∧
        ((eliminateLoop (collectCandidates c1Conn 0 c1Impls).length
              (collectCandidates c1Conn 0 c1Impls)).length = 1 ∨
          deleteFirstDeletable
              (eliminateLoop (collectCandidates c1Conn 0 c1Impls).length
                (collectCandidates c1Conn 0 c1Impls)) = none) ∧
        (∀ p rest,
          eliminateLoop (collectCandidates c1Conn 0 c1Impls).length
              (collectCandidates c1Conn 0 c1Impls) = p :: rest →
            (rest = [] →
              get_method_variation c1Hierarchy 1 0 0 c1Conn false = .ok (some p.1)) ∧
            (rest ≠ [] →
              get_method_variation c1Hierarchy 1 0 0 c1Conn false =
                .error (.unclearAmbiguous 1 0 0)))) :=
  ⟨⟨rfl, rfl, by decide⟩,
    c1_method_variation_elimination c1Hierarchy 1 0 0 c1Conn false c1Registry c1Impls
      rfl rfl (by decide)⟩

namespace Balder

/-- A feature class with locally declared VDevices returns exactly those
from `get_inner_vdevice_classes`. -/
lemma getInner_of_local_ne (H : FeatureHierarchy) (c : Nat)
    (h : H.localVDevices c ≠ []) :
    get_inner_vdevice_classes H c = H.localVDevices c := by
  have hlen : ¬(H.localVDevices c).length = 0 := by
    intro h0; exact h (List.length_eq_zero.1 h0)
  rw [get_inner_vdevice_classes, getInnerVDeviceClassesAux]
  simp [hlen]

lemma parentSearchList_congr (f g : Nat → Except BErr (Option Nat))
    (c methName vdev : Nat) (ig : Bool) :
    ∀ bs : List Nat, (∀ b ∈ bs, f b = g b) →
      parentSearchList f c methName vdev ig bs =
        parentSearchList g c methName vdev ig bs := by
  intro bs
  induction bs with
  | nil => intro _; rfl
  | cons b rest ih =>
    intro h
    rw [parentSearchList, parentSearchList]
    by_cases hb : b ≠ 0
    · rw [if_pos hb, if_pos hb, h b (List.mem_cons_self b rest)]
      cases g b with
      | error e => rfl
      | ok o =>
        cases o with
        | some m => rfl
        | none => exact ih (fun x hx => h x (List.mem_cons_of_mem b hx))
    · rw [if_neg hb, if_neg hb]
      exact ih (fun x hx => h x (List.mem_cons_of_mem b hx))

/-- `get_method_variation` does not depend on the fuel, as long as the fuel
exceeds the class identifier. -/
lemma getMVAux_fuel_irrel (H : FeatureHierarchy)
    (hlt : ∀ x q, q ∈ H.featureBases x → q < x)
    (methName vdev : Nat) (withConn : Connection) :
    ∀ c f1 f2 (ig : Bool), c < f1 → c < f2 →
      getMethodVariationAux H f1 c methName vdev withConn ig =
        getMethodVariationAux H f2 c methName vdev withConn ig := by
  intro c
  induction c using Nat.strong_induction_on with
  | _ c ih =>
    intro f1 f2 ig h1 h2
    obtain ⟨a, rfl⟩ : ∃ a, f1 = a + 1 := ⟨f1 - 1, by omega⟩
    obtain ⟨b, rfl⟩ : ∃ b, f2 = b + 1 := ⟨f2 - 1, by omega⟩
    cases hm : H.methodVar c with
    | none => simp only [getMethodVariationAux, hm]
    | some registry =>
      cases hi : alookup registry methName with
      | none => simp only [getMethodVariationAux, hm, hi]
      | some impls =>
        cases hc : collectCandidates withConn vdev impls with
        | nil =>
          simp only [getMethodVariationAux, hm, hi, hc]
          apply parentSearchList_congr
          intro q hq
          have hqc : q < c := hlt c q hq
          exact ih q hqc a b true (by omega) (by omega)
        | cons q t =>
          cases t with
          | nil => simp only [getMethodVariationAux, hm, hi, hc]
          | cons q2 t2 => simp only [getMethodVariationAux, hm, hi, hc]

/-- When at least two non-root `Feature` bases are present, the next-parent
loop raises the multi-inheritance error. -/
lemma nextFeatureParentLoop_multi (c : Nat) :
    ∀ bs : List Nat,
      (∀ x, 1 ≤ (bs.filter (fun b => b != 0)).length →
        nextFeatureParentLoop c bs (some x) = .error (.multiInheritance c)) ∧
      (2 ≤ (bs.filter (fun b => b != 0)).length →
        nextFeatureParentLoop c bs none = .error (.multiInheritance c)) := by
  intro bs
  induction bs with
  | nil =>
    constructor
    · intro x h; simp at h
    · intro h; simp at h
  | cons b rest ih =>
    constructor
    · intro x h
      rw [nextFeatureParentLoop]
      by_cases hb : b ≠ 0
      · rw [if_pos hb]
      · rw [if_neg hb]
        apply ih.1
        rw [List.filter_cons] at h
        simpa [show ¬(b != 0) = true by simp [hb]] using h
    · intro h
      rw [nextFeatureParentLoop]
      by_cases hb : b ≠ 0
      · rw [if_pos hb]
        apply ih.1
        rw [List.filter_cons] at h
        rw [if_pos (by simp [hb] : (b != 0) = true)] at h
        simp only [List.length_cons] at h
        omega
      · rw [if_neg hb]
        apply ih.2
        rw [List.filter_cons] at h
        simpa [show ¬(b != 0) = true by simp [hb]] using h

end Balder

/-- C3: when `get_method_variation` finds zero candidates at the current
feature class, it repeats the search exactly one level up the single-parent
chain (with `ignore_no_findings=True`), propagating an error, returning a
found variation, and otherwise failing (or returning `None` when the caller
asked to ignore); moreover a feature class that declares local VDevices and
has more than one non-root `Feature` parent fails fast with the
multi-inheritance error in `validate_inner_vdevice_inheritance`. -/
theorem c3_zero_findings_parent_walk (H : FeatureHierarchy) (c p methName vdev : Nat)
    (withConn : Connection) (ignore : Bool)
    (registry : List (Nat × List (Nat × List (Nat × List Connection))))
    (impls : List (Nat × List (Nat × List Connection)))
    (hlt : ∀ x q, q ∈ H.featureBases x → q < x)
    (hreg : H.methodVar c = some registry)
    (himpls : alookup registry methName = some impls)
    (hzero : collectCandidates withConn vdev impls = [])
    (hparent : H.featureBases c = [p]) (hp0 : p ≠ 0) :
    (get_method_variation H c methName vdev withConn ignore =
        match get_method_variation H p methName vdev withConn true with
        | .error e => .error e
        | .ok (some m) => .ok (some m)
        | .ok none =>
          if ignore then .ok none
          else .error (.unclearNoVariation c methName vdev)) ∧
      ∀ x, H.localVDevices x ≠ [] →
        2 ≤ ((H.featureBases x).filter (fun b => b != 0)).length →
        validate_inner_vdevice_inheritance H x = .error (.multiInheritance x) := by
  constructor
  · have hpc : p < c := hlt c p (by rw [hparent]; exact List.mem_cons_self p [])
    rw [get_method_variation]
    simp only [getMethodVariationAux, hreg, himpls, hzero, hparent]
    rw [parentSearchList, if_pos hp0]
    have hfuel : getMethodVariationAux H c p methName vdev withConn true =
        get_method_variation H p methName vdev withConn true := by
      rw [get_method_variation]
      exact getMVAux_fuel_irrel H hlt methName vdev withConn p c (p + 1) true hpc
        (Nat.lt_succ_self p)
    rw [hfuel]
    cases get_method_variation H p methName vdev withConn true with
    | error e => rfl
    | ok o =>
      cases o with
      | some m => rfl
      | none => rfl
  · intro x hlocal hcount
    have hdir := getInner_of_local_ne H x hlocal
    have hne : (H.localVDevices x).length ≠ 0 := by
      intro h0; exact hlocal (List.length_eq_zero.1 h0)
    have herr : nextFeatureParentLoop x (H.featureBases x) none =
        .error (.multiInheritance x) :=
      (nextFeatureParentLoop_multi x (H.featureBases x)).2 hcount
    rw [validate_inner_vdevice_inheritance]
    simp only [validateInnerVDeviceInheritanceAux, hdir, nextFeatureParent, herr]
    rw [if_pos hne]

/-- C3 witness: the parent-walk theorem applied to the concrete hierarchy
`c3Hierarchy` at feature class 2 (single parent 1, method 7, VDevice 9). -/
theorem c3_witness :
    ((∀ x q, q ∈ c3Hierarchy.featureBases x → q < x) ∧
        c3Hierarchy.methodVar 2 =
          some [(7, ([] : List (Nat × List (Nat × List Connection))))] ∧
        alookup [(7, ([] : List (Nat × List (Nat × List Connection))))] 7 =
          some [] ∧
        collectCandidates c1Conn 9 [] = ([] : List (Nat × Connection)) ∧
        c3Hierarchy.featureBases 2 = [1] ∧ (1 : Nat) ≠ 0) ∧
      ((get_method_variation c3Hierarchy 2 7 9 c1Conn false =
          match get_method_variation c3Hierarchy 1 7 9 c1Conn true with
          | .error e => .error e
          | .ok (some m) => .ok (some m)
          | .ok none =>
            if false then .ok none else .error (.unclearNoVariation 2 7 9)) ∧
        ∀ x, c3Hierarchy.localVDevices x ≠ [] →
          2 ≤ ((c3Hierarchy.featureBases x).filter (fun b => b != 0)).length →
          validate_inner_vdevice_inheritance c3Hierarchy x =
            .error (.multiInheritance x)) := by
  have hlt : ∀ x q, q ∈ c3Hierarchy.featureBases x → q < x := by
    intro x q hq
    by_cases h1 : x = 1
    · subst h1; simp [c3Hierarchy] at hq; omega
    · by_cases h2 : x = 2
      · subst h2; simp [c3Hierarchy] at hq; omega
      · by_cases h4 : x = 4
        · subst h4; simp [c3Hierarchy] at hq; rcases hq with rfl | rfl <;> omega
        · simp [c3Hierarchy, h1, h2, h4] at hq
  exact ⟨⟨hlt, rfl, rfl, rfl, rfl, by decide⟩,
    c3_zero_findings_parent_walk c3Hierarchy 2 1 7 9 c1Conn false
      [(7, [])] [] hlt rfl rfl rfl rfl (by decide)⟩

/-- C10 witness: the extensional equality applied to the concrete hierarchy
`c1Hierarchy` at feature class 1. -/
theorem c10_witness :
    (∀ x q, q ∈ c1Hierarchy.featureBases x → q < x) ∧
      (get_inner_vdevice_classes c1Hierarchy 1 =
          get_abs_inner_vdevice_classes c1Hierarchy 1 ∧
        (∀ b bs, c1Hierarchy.localVDevices 1 = [] →
          c1Hierarchy.featureBases 1 = b :: bs → b ≠ 0 →
          get_inner_vdevice_classes c1Hierarchy 1 =
            get_abs_inner_vdevice_classes c1Hierarchy b)) :=
  ⟨fun x q hq => by simp [c1Hierarchy] at hq,
    c10_inner_eq_abs_vdevice_classes c1Hierarchy 1
      (fun x q hq => by simp [c1Hierarchy] at hq)⟩

namespace Balder

lemma checkVDevFeatureProps_ok_iff (H : FeatureHierarchy) (childV parentV : Nat)
    (cf : List (Nat × Nat)) :
    ∀ pf : List (Nat × Nat),
      checkVDevFeatureProps H childV parentV cf pf = .ok () ↔
        ∀ q ∈ pf, ∃ f, alookup cf q.1 = some f ∧ H.featIsInstance f q.2 = true := by
  intro pf
  induction pf with
  | nil => simp [checkVDevFeatureProps]
  | cons q rest ih =>
    rw [checkVDevFeatureProps]
    cases hl : alookup cf q.1 with
    | none => simp [hl, List.forall_mem_cons]
    | some f =>
      cases hi : H.featIsInstance f q.2 with
      | false => simp [hl, hi, List.forall_mem_cons]
      | true => simp [hl, hi, ih, List.forall_mem_cons]

lemma checkOneParentVDevice_ok_iff (H : FeatureHierarchy) (c : Nat)
    (directs : List Nat) (pv : Nat) :
    checkOneParentVDevice H c directs pv = .ok () ↔
      ∃ d, firstWithName H (H.vdevName pv) directs = some d ∧
        H.vdevIsSub d pv = true ∧
        ∀ q ∈ H.vdevFeatures pv,
          ∃ f, alookup (H.vdevFeatures d) q.1 = some f ∧
            H.featIsInstance f q.2 = true := by
  rw [checkOneParentVDevice]
  cases hf : firstWithName H (H.vdevName pv) directs with
  | none => simp
  | some child =>
    cases hs : H.vdevIsSub child pv with
    | false => simp [hs]
    | true => simp [hs, checkVDevFeatureProps_ok_iff]

lemma checkParentVDevices_ok_iff (H : FeatureHierarchy) (c : Nat)
    (directs : List Nat) :
    ∀ pvs : List Nat,
      checkParentVDevices H c directs pvs = .ok () ↔
        ∀ pv ∈ pvs, checkOneParentVDevice H c directs pv = .ok () := by
  intro pvs
  induction pvs with
  | nil => simp [checkParentVDevices]
  | cons pv rest ih =>
    rw [checkParentVDevices]
    cases ho : checkOneParentVDevice H c directs pv with
    | error e => simp [ho, List.forall_mem_cons]
    | ok u =>
      cases u
      simp [ho, ih, List.forall_mem_cons]

lemma checkVDevFeatureProps_error_shape (H : FeatureHierarchy)
    (childV parentV : Nat) (cf : List (Nat × Nat)) :
    ∀ (pf : List (Nat × Nat)) (e : BErr),
      checkVDevFeatureProps H childV parentV cf pf = .error e →
        (∃ q, e = .vdevResolving q parentV childV) ∨
          (∃ q, e = .featureOverwriting q childV parentV) := by
  intro pf
  induction pf with
  | nil => intro e h; cases h
  | cons q rest ih =>
    intro e h
    rw [checkVDevFeatureProps] at h
    cases hl : alookup cf q.1 with
    | none =>
      rw [hl] at h
      cases h
      exact Or.inl ⟨q.1, rfl⟩
    | some f =>
      rw [hl] at h
      cases hi : H.featIsInstance f q.2 with
      | false =>
        simp [hi] at h
        cases h
        exact Or.inr ⟨q.1, rfl⟩
      | true =>
        simp [hi] at h
        exact ih e h

lemma checkOneParentVDevice_error_shape (H : FeatureHierarchy) (c : Nat)
    (directs : List Nat) (pv : Nat) (e : BErr)
    (h : checkOneParentVDevice H c directs pv = .error e) :
    e = .vdevOverwritingMissing pv c ∨
      (∃ d, e = .vdevOverwritingLineage d pv) ∨
      (∃ q d, e = .vdevResolving q pv d) ∨
      (∃ q d, e = .featureOverwriting q d pv) := by
  rw [checkOneParentVDevice] at h
  cases hf : firstWithName H (H.vdevName pv) directs with
  | none =>
    rw [hf] at h
    cases h
    exact Or.inl rfl
  | some child =>
    rw [hf] at h
    cases hs : H.vdevIsSub child pv with
    | false =>
      simp [hs] at h
      cases h
      exact Or.inr (Or.inl ⟨child, rfl⟩)
    | true =>
      simp [hs] at h
      rcases checkVDevFeatureProps_error_shape H child pv
          (H.vdevFeatures child) (H.vdevFeatures pv) e h with ⟨q, rfl⟩ | ⟨q, rfl⟩
      · exact Or.inr (Or.inr (Or.inl ⟨q, child, rfl⟩))
      · exact Or.inr (Or.inr (Or.inr ⟨q, child, rfl⟩))

lemma checkParentVDevices_error_shape (H : FeatureHierarchy) (c : Nat)
    (directs : List Nat) :
    ∀ (pvs : List Nat) (e : BErr),
      checkParentVDevices H c directs pvs = .error e →
        ∃ pv ∈ pvs, checkOneParentVDevice H c directs pv = .error e := by
  intro pvs
  induction pvs with
  | nil => intro e h; cases h
  | cons pv rest ih =>
    intro e h
    rw [checkParentVDevices] at h
    cases ho : checkOneParentVDevice H c directs pv with
    | error e2 =>
      rw [ho] at h
      cases h
      exact ⟨pv, List.mem_cons_self pv rest, ho⟩
    | ok u =>
      cases u
      rw [ho] at h
      simp at h
      obtain ⟨pv2, hmem, he⟩ := ih e h
      exact ⟨pv2, List.mem_cons_of_mem pv hmem, he⟩

lemma nextFeatureParentLoop_mem (c : Nat) :
    ∀ (bs : List Nat) (acc : Option Nat) (p : Nat),
      nextFeatureParentLoop c bs acc = .ok (some p) → p ∈ bs ∨ acc = some p := by
  intro bs
  induction bs with
  | nil =>
    intro acc p h
    simp only [nextFeatureParentLoop, Except.ok.injEq] at h
    exact Or.inr h
  | cons b rest ih =>
    intro acc p h
    simp only [nextFeatureParentLoop] at h
    by_cases hb : b ≠ 0
    · rw [if_pos hb] at h
      cases acc with
      | some x => cases h
      | none =>
        rcases ih (some b) p h with hmem | hacc
        · exact Or.inl (List.mem_cons_of_mem b hmem)
        · cases hacc
          exact Or.inl (List.mem_cons_self b rest)
    · rw [if_neg hb] at h
      rcases ih acc p h with hmem | hacc
      · exact Or.inl (List.mem_cons_of_mem b hmem)
      · exact Or.inr hacc

/-- `validate_inner_vdevice_inheritance` does not depend on the fuel, as
long as the fuel exceeds the class identifier. -/
lemma validateAux_fuel_irrel (H : FeatureHierarchy)
    (hlt : ∀ x q, q ∈ H.featureBases x → q < x) :
    ∀ c f1 f2, c < f1 → c < f2 →
      validateInnerVDeviceInheritanceAux H f1 c =
        validateInnerVDeviceInheritanceAux H f2 c := by
  intro c
  induction c using Nat.strong_induction_on with
  | _ c ih =>
    intro f1 f2 h1 h2
    obtain ⟨a, rfl⟩ : ∃ a, f1 = a + 1 := ⟨f1 - 1, by omega⟩
    obtain ⟨b, rfl⟩ : ∃ b, f2 = b + 1 := ⟨f2 - 1, by omega⟩
    cases hn : nextFeatureParent H c with
    | error e => simp only [validateInnerVDeviceInheritanceAux, hn]
    | ok o =>
      cases o with
      | none => simp only [validateInnerVDeviceInheritanceAux, hn]
      | some p =>
        have hp : p < c := by
          rcases nextFeatureParentLoop_mem c (H.featureBases c) none p hn with hmem | habs
          · exact hlt c p hmem
          · cases habs
        have hrec : validateInnerVDeviceInheritanceAux H a p =
            validateInnerVDeviceInheritanceAux H b p :=
          ih p hp a b (by omega) (by omega)
        simp only [validateInnerVDeviceInheritanceAux, hn, hrec]

end Balder

/-- C4: for a feature class `c` that declares at least one VDevice locally,
has the single `Feature` parent `p`, and whose parent validates, the
validation succeeds exactly when every absolute parent VDevice has a
same-named direct VDevice that is its subclass and whose instantiated
feature attributes cover the parent VDevice's attributes with same-or-subtype
feature classes; and every failure is one of the four distinct error kinds
(missing override, wrong lineage, missing feature property, incompatible
feature substitution). -/
theorem c4_vdevice_inheritance_validation (H : FeatureHierarchy) (c p : Nat)
    (hlt : ∀ x q, q ∈ H.featureBases x → q < x)
    (hlocal : H.localVDevices c ≠ [])
    (hpar : nextFeatureParent H c = .ok (some p))
    (hpok : validate_inner_vdevice_inheritance H p = .ok ()) :
    (validate_inner_vdevice_inheritance H c = .ok () ↔
      ∀ pv ∈ get_abs_inner_vdevice_classes H p,
        ∃ d, firstWithName H (H.vdevName pv) (H.localVDevices c) = some d ∧
          H.vdevIsSub d pv = true ∧
          ∀ q ∈ H.vdevFeatures pv,
            ∃ f, alookup (H.vdevFeatures d) q.1 = some f ∧
              H.featIsInstance f q.2 = true) ∧
    (∀ e, validate_inner_vdevice_inheritance H c = .error e →
      (∃ pv, e = .vdevOverwritingMissing pv c) ∨
      (∃ d pv, e = .vdevOverwritingLineage d pv) ∨
      (∃ q pv d, e = .vdevResolving q pv d) ∨
      (∃ q d pv, e = .featureOverwriting q d pv)) := by
  have hp : p < c := by
    rcases nextFeatureParentLoop_mem c (H.featureBases c) none p hpar with hmem | habs
    · exact hlt c p hmem
    · cases habs
  have hdir := getInner_of_local_ne H c hlocal
  have hne : (H.localVDevices c).length ≠ 0 := by
    intro h0; exact hlocal (List.length_eq_zero.1 h0)
  have hpfuel : validateInnerVDeviceInheritanceAux H c p = .ok () := by
    rw [← hpok, validate_inner_vdevice_inheritance]
    exact validateAux_fuel_irrel H hlt p c (p + 1) hp (Nat.lt_succ_self p)
  have hbody : validate_inner_vdevice_inheritance H c =
      checkParentVDevices H c (H.localVDevices c) (get_abs_inner_vdevice_classes H p) := by
    rw [validate_inner_vdevice_inheritance]
    simp only [validateInnerVDeviceInheritanceAux, hdir, hpar, hpfuel]
    rw [if_pos hne]
  constructor
  · rw [hbody, checkParentVDevices_ok_iff]
    constructor
    · intro h pv hmem
      exact (checkOneParentVDevice_ok_iff H c (H.localVDevices c) pv).1 (h pv hmem)
    · intro h pv hmem
      exact (checkOneParentVDevice_ok_iff H c (H.localVDevices c) pv).2 (h pv hmem)
  · intro e he
    rw [hbody] at he
    obtain ⟨pv, -, hone⟩ :=
      checkParentVDevices_error_shape H c (H.localVDevices c)
        (get_abs_inner_vdevice_classes H p) e he
    rcases checkOneParentVDevice_error_shape H c (H.localVDevices c) pv e hone with
      h | ⟨d, h⟩ | ⟨q, d, h⟩ | ⟨q, d, h⟩
    · exact Or.inl ⟨pv, h⟩
    · exact Or.inr (Or.inl ⟨d, pv, h⟩)
    · exact Or.inr (Or.inr (Or.inl ⟨q, pv, d, h⟩))
    · exact Or.inr (Or.inr (Or.inr ⟨q, d, pv, h⟩))

/-- C4 witness: the VDevice-inheritance validation theorem applied to the
concrete hierarchy `c4Hierarchy` at feature class 2 with parent 1. -/
theorem c4_witness :
    ((∀ x q, q ∈ c4Hierarchy.featureBases x → q < x) ∧
        c4Hierarchy.localVDevices 2 ≠ [] ∧
        nextFeatureParent c4Hierarchy 2 = .ok (some 1) ∧
        validate_inner_vdevice_inheritance c4Hierarchy 1 = .ok ()) ∧
      ((validate_inner_vdevice_inheritance c4Hierarchy 2 = .ok () ↔
          ∀ pv ∈ get_abs_inner_vdevice_classes c4Hierarchy 1,
            ∃ d, firstWithName c4Hierarchy (c4Hierarchy.vdevName pv)
                (c4Hierarchy.localVDevices 2) = some d ∧
              c4Hierarchy.vdevIsSub d pv = true ∧
              ∀ q ∈ c4Hierarchy.vdevFeatures pv,
                ∃ f, alookup (c4Hierarchy.vdevFeatures d) q.1 = some f ∧
                  c4Hierarchy.featIsInstance f q.2 = true) ∧
        (∀ e, validate_inner_vdevice_inheritance c4Hierarchy 2 = .error e →
          (∃ pv, e = .vdevOverwritingMissing pv 2) ∨
          (∃ d pv, e = .vdevOverwritingLineage d pv) ∨
          (∃ q pv d, e = .vdevResolving q pv d) ∨
          (∃ q d pv, e = .featureOverwriting q d pv))) := by
  have hlt : ∀ x q, q ∈ c4Hierarchy.featureBases x → q < x := by
    intro x q hq
    by_cases h1 : x = 1
    · subst h1; simp [c4Hierarchy] at hq; omega
    · by_cases h2 : x = 2
      · subst h2; simp [c4Hierarchy] at hq; omega
      · simp [c4Hierarchy, h1, h2] at hq
  have h1 : get_inner_vdevice_classes c4Hierarchy 1 = [11] := by
    rw [get_inner_vdevice_classes, getInnerVDeviceClassesAux]
    simp [c4Hierarchy]
  have hpok : validate_inner_vdevice_inheritance c4Hierarchy 1 = .ok () := by
    rw [validate_inner_vdevice_inheritance]
    simp only [validateInnerVDeviceInheritanceAux, h1]
    rw [if_pos (by decide : ([11] : List Nat).length ≠ 0)]
    rfl
  exact ⟨⟨hlt, by decide, rfl, hpok⟩,
    c4_vdevice_inheritance_validation c4Hierarchy 2 1 hlt (by decide) rfl hpok⟩

/-- C5 (code bug): in the crossed hierarchy `c5Hierarchy`, device 201 reuses
the name of parent device 101 without subclassing it (and subclasses parent
device 102 without reusing its name), yet `validate_inheritance` accepts the
child class without raising any `DeviceOverwritingError`: the source's
`elif` chain has no branch for a present naming parent together with a
different present inheritance parent. -/
theorem c5_crossed_overriding_not_detected :
    c5Hierarchy.devName 201 = c5Hierarchy.devName 101 ∧
      c5Hierarchy.devIsSub 201 101 = false ∧
      c5Hierarchy.devIsSub 201 102 = true ∧
      c5Hierarchy.devName 201 ≠ c5Hierarchy.devName 102 ∧
      c5Hierarchy.localDevices 2 = [201, 202] ∧
      get_all_abs_inner_device_classes c5Hierarchy 1 = .ok [101, 102] ∧
      validate_inheritance c5Hierarchy 2 = .ok () :=
  ⟨rfl, rfl, rfl, by decide, rfl, rfl, rfl⟩

namespace Balder

lemma alookup_aset_same {α β : Type} [DecidableEq α] :
    ∀ (l : List (α × β)) (k : α) (v : β), alookup (aset l k v) k = some v := by
  intro l k v
  induction l with
  | nil => simp [aset, alookup]
  | cons p rest ih =>
    rw [aset]
    by_cases hk : p.1 = k
    · rw [if_pos hk, alookup, if_pos rfl]
    · rw [if_neg hk, alookup, if_neg hk]
      exact ih

lemma alookup_aset_other {α β : Type} [DecidableEq α] :
    ∀ (l : List (α × β)) (k k2 : α) (v : β), k ≠ k2 →
      alookup (aset l k v) k2 = alookup l k2 := by
  intro l k k2 v hne
  induction l with
  | nil =>
    rw [aset]
    simp [alookup, hne]
  | cons p rest ih =>
    rw [aset]
    by_cases hk : p.1 = k
    · rw [if_pos hk, alookup, alookup, if_neg (show ¬(k, v).1 = k2 from hne)]
      rw [if_neg (show ¬p.1 = k2 from fun h => hne (hk.symm.trans h))]
    · rw [if_neg hk, alookup, alookup]
      by_cases hk2 : p.1 = k2
      · rw [if_pos hk2, if_pos hk2]
      · rw [if_neg hk2, if_neg hk2]
        exact ih

/-- A successful insertion makes the inserted tuple's singles retrievable. -/
lemma lookup4_insert4_same (t t2 : SingleTable)
    (k : Nat × Option Nat × Nat × Option Nat) (cnn : Connection)
    (hok : insert4 t k cnn = .ok t2) :
    lookup4 t2 k = some cnn.get_singles := by
  rw [insert4] at hok
  cases hl : lookup4 t k with
  | some v => rw [hl] at hok; cases hok
  | none =>
    rw [hl] at hok
    cases hok
    rw [lookup4]
    rw [alookup_aset_same]
    simp only [Option.getD_some]
    rw [alookup_aset_same]
    simp only [Option.getD_some]
    rw [alookup_aset_same]
    simp only [Option.getD_some]
    rw [alookup_aset_same]

/-- A successful insertion leaves every other tuple's lookup unchanged. -/
lemma lookup4_insert4_other (t t2 : SingleTable)
    (k k2 : Nat × Option Nat × Nat × Option Nat) (cnn : Connection)
    (hok : insert4 t k cnn = .ok t2) (hne : k2 ≠ k) :
    lookup4 t2 k2 = lookup4 t k2 := by
  rw [insert4] at hok
  cases hl : lookup4 t k with
  | some v => rw [hl] at hok; cases hok
  | none =>
    rw [hl] at hok
    cases hok
    obtain ⟨d1, n1, d2, n2⟩ := k
    obtain ⟨e1, m1, e2, m2⟩ := k2
    by_cases h1 : e1 = d1
    · subst h1
      rw [lookup4, lookup4, alookup_aset_same]
      simp only [Option.getD_some]
      by_cases h2 : m1 = n1
      · subst h2
        rw [alookup_aset_same]
        simp only [Option.getD_some]
        by_cases h3 : e2 = d2
        · subst h3
          rw [alookup_aset_same]
          simp only [Option.getD_some]
          have h4 : m2 ≠ n2 := by
            intro h4
            exact hne (by rw [h4])
          rw [alookup_aset_other _ _ _ _ (fun h => h4 h.symm)]
        · rw [alookup_aset_other _ _ _ _ (fun h => h3 h.symm)]
      · rw [alookup_aset_other _ _ _ _ (fun h => h2 h.symm)]
    · rw [lookup4, lookup4, alookup_aset_other _ _ _ _ (fun h => h1 h.symm)]

/-- An insertion succeeds exactly when the tuple is not yet present. -/
lemma insert4_ok_iff (t : SingleTable) (k : Nat × Option Nat × Nat × Option Nat)
    (cnn : Connection) :
    (∃ t2, insert4 t k cnn = .ok t2) ↔ lookup4 t k = none := by
  rw [insert4]
  cases hl : lookup4 t k with
  | some v =>
    constructor
    · rintro ⟨t2, h⟩; cases h
    · intro h; cases h
  | none => exact ⟨fun _ => rfl, fun _ => ⟨_, rfl⟩⟩

/-- The table build succeeds exactly when the four-key tuples are free of
duplicates (relative to the keys already present in the accumulator). -/
lemma buildTable_ok_iff :
    ∀ (l : List ((Nat × Option Nat × Nat × Option Nat) × Connection))
      (t : SingleTable),
      (∃ t2, buildTable l t = .ok t2) ↔
        ((l.map Prod.fst).Nodup ∧ ∀ p ∈ l, lookup4 t p.1 = none) := by
  intro l
  induction l with
  | nil => intro t; simp [buildTable]
  | cons p rest ih =>
    intro t
    rw [buildTable]
    cases hi : insert4 t p.1 p.2 with
    | error e =>
      constructor
      · rintro ⟨t2, h⟩; cases h
      · rintro ⟨-, hall⟩
        have hn := hall p (List.mem_cons_self p rest)
        obtain ⟨t2, h2⟩ := (insert4_ok_iff t p.1 p.2).2 hn
        rw [hi] at h2; cases h2
    | ok t1 =>
      have hnone : lookup4 t p.1 = none :=
        (insert4_ok_iff t p.1 p.2).1 ⟨t1, hi⟩
      have hsame := lookup4_insert4_same t t1 p.1 p.2 hi
      rw [ih t1]
      simp only [List.map_cons, List.nodup_cons, List.forall_mem_cons, List.mem_map]
      constructor
      · rintro ⟨hnodup, hall⟩
        refine ⟨⟨?_, hnodup⟩, hnone, ?_⟩
        · rintro ⟨q, hq, hqk⟩
          have hcontra := hall q hq
          rw [hqk, hsame] at hcontra
          cases hcontra
        · intro q hq
          have := hall q hq
          by_cases hqk : q.1 = p.1
          · rw [hqk, hsame] at this; cases this
          · rw [lookup4_insert4_other t t1 p.1 q.1 p.2 hi hqk] at this
            exact this
      · rintro ⟨⟨hnotmem, hnodup⟩, -, hall⟩
        refine ⟨hnodup, ?_⟩
        intro q hq
        have hqk : q.1 ≠ p.1 := fun h => hnotmem ⟨q, hq, h⟩
        rw [lookup4_insert4_other t t1 p.1 q.1 p.2 hi hqk]
        exact hall q hq

/-- On success every processed tuple maps to its connection's singles, and
unprocessed keys are untouched. -/
lemma buildTable_lookup :
    ∀ (l : List ((Nat × Option Nat × Nat × Option Nat) × Connection))
      (t t2 : SingleTable),
      buildTable l t = .ok t2 → (l.map Prod.fst).Nodup →
        (∀ p ∈ l, lookup4 t2 p.1 = some p.2.get_singles) ∧
        (∀ k, (∀ p ∈ l, p.1 ≠ k) → lookup4 t2 k = lookup4 t k) := by
  intro l
  induction l with
  | nil =>
    intro t t2 h _
    rw [buildTable] at h
    cases h
    exact ⟨by simp, fun k _ => rfl⟩
  | cons p rest ih =>
    intro t t2 h hnodup
    rw [buildTable] at h
    cases hi : insert4 t p.1 p.2 with
    | error e => rw [hi] at h; cases h
    | ok t1 =>
      rw [hi] at h
      simp only [List.map_cons, List.nodup_cons, List.mem_map] at hnodup
      obtain ⟨hnotmem, hnodup2⟩ := hnodup
      obtain ⟨ih1, ih2⟩ := ih t1 t2 h hnodup2
      constructor
      · intro q hq
        rcases List.mem_cons.1 hq with heq | hmem
        · subst heq
          rw [ih2 q.1 (fun r hr hrk => hnotmem ⟨r, hr, hrk⟩)]
          exact lookup4_insert4_same t t1 q.1 q.2 hi
        · exact ih1 q hmem
      · intro k hk
        rw [ih2 k (fun r hr => hk r (List.mem_cons_of_mem p hr))]
        exact lookup4_insert4_other t t1 p.1 k p.2 hi
          (fun h2 => hk p (List.mem_cons_self p rest) h2.symm)

end Balder

/-- C7: `get_absolute_single_connections` builds the nested
from-device/from-node/to-device/to-node table; it succeeds exactly when all
four-key tuples produced by the absolute connections are distinct (raising
on the first duplicate definition instead of merging or overwriting), and on
success every endpoint tuple maps to the singles of its absolute
connection. -/
theorem c7_absolute_single_connections (H : ScenarioHierarchy) (c : Nat)
    (devs : List Nat)
    (hdevs : get_all_abs_inner_device_classes H c = .ok devs) :
    ((∃ t, get_absolute_single_connections H c = .ok t) ↔
        ((allTuples H devs).map Prod.fst).Nodup) ∧
      (∀ t, get_absolute_single_connections H c = .ok t →
        ∀ p ∈ allTuples H devs, lookup4 t p.1 = some p.2.get_singles) := by
  have hb : get_absolute_single_connections H c = buildTable (allTuples H devs) [] := by
    rw [get_absolute_single_connections, hdevs]
  constructor
  · rw [hb, buildTable_ok_iff]
    constructor
    · rintro ⟨hn, -⟩; exact hn
    · intro hn; exact ⟨hn, fun p _ => rfl⟩
  · intro t ht p hp
    rw [hb] at ht
    have hnodup := ((buildTable_ok_iff (allTuples H devs) []).1 ⟨t, ht⟩).1
    exact (buildTable_lookup _ _ _ ht hnodup).1 p hp

/-- C7 witness: the theorem applied to the concrete hierarchy `c7Hierarchy`
with the single absolute connection `c7Conn` between devices 5 and 6. -/
theorem c7_witness :
    get_all_abs_inner_device_classes c7Hierarchy 1 = .ok [5, 6] ∧
      (((∃ t, get_absolute_single_connections c7Hierarchy 1 = .ok t) ↔
          ((allTuples c7Hierarchy [5, 6]).map Prod.fst).Nodup) ∧
        (∀ t, get_absolute_single_connections c7Hierarchy 1 = .ok t →
          ∀ p ∈ allTuples c7Hierarchy [5, 6],
            lookup4 t p.1 = some p.2.get_singles)) :=
  ⟨rfl, c7_absolute_single_connections c7Hierarchy 1 [5, 6] rfl⟩

namespace Balder

lemma dedupAppend_mem :
    ∀ (l acc : List Connection) (x : Connection),
      x ∈ dedupAppend acc l ↔ x ∈ acc ∨ x ∈ l := by
  intro l
  induction l with
  | nil => intro acc x; simp [dedupAppend]
  | cons cnn rest ih =>
    intro acc x
    show x ∈ dedupAppend (if cnn ∈ acc then acc else acc ++ [cnn]) rest ↔
      x ∈ acc ∨ x ∈ cnn :: rest
    rw [ih]
    by_cases hc : cnn ∈ acc
    · rw [if_pos hc]
      simp only [List.mem_cons]
      constructor
      · rintro (h | h)
        · exact Or.inl h
        · exact Or.inr (Or.inr h)
      · rintro (h | h | h)
        · exact Or.inl h
        · exact Or.inl (by rw [h]; exact hc)
        · exact Or.inr h
    · rw [if_neg hc]
      simp only [List.mem_append, List.mem_cons, List.mem_singleton]
      tauto

lemma dedupAppend_nodup :
    ∀ (l acc : List Connection), acc.Nodup → (dedupAppend acc l).Nodup := by
  intro l
  induction l with
  | nil => intro acc h; exact h
  | cons cnn rest ih =>
    intro acc h
    show (dedupAppend (if cnn ∈ acc then acc else acc ++ [cnn]) rest).Nodup
    by_cases hc : cnn ∈ acc
    · rw [if_pos hc]; exact ih acc h
    · rw [if_neg hc]
      refine ih _ ?_
      rw [List.nodup_append]
      exact ⟨h, List.nodup_singleton cnn, by simpa using hc⟩

lemma absConnFold_mem (H : ScenarioHierarchy) :
    ∀ (items : List (Nat × List Connection)) (acc : List Connection) (x : Connection),
      x ∈ items.foldl (fun acc2 p => dedupAppend acc2 p.2) acc ↔
        x ∈ acc ∨ ∃ p ∈ items, x ∈ p.2 := by
  intro items
  induction items with
  | nil => intro acc x; simp
  | cons p rest ih =>
    intro acc x
    rw [List.foldl_cons, ih, dedupAppend_mem]
    simp only [List.mem_cons]
    constructor
    · rintro ((h | h) | ⟨q, hq, hx⟩)
      · exact Or.inl h
      · exact Or.inr ⟨p, Or.inl rfl, h⟩
      · exact Or.inr ⟨q, Or.inr hq, hx⟩
    · rintro (h | ⟨q, hq | hq, hx⟩)
      · exact Or.inl (Or.inl h)
      · exact Or.inl (Or.inr (hq ▸ hx))
      · exact Or.inr ⟨q, hq, hx⟩

lemma absConnFold_nodup (H : ScenarioHierarchy) :
    ∀ (items : List (Nat × List Connection)) (acc : List Connection),
      acc.Nodup → (items.foldl (fun acc2 p => dedupAppend acc2 p.2) acc).Nodup := by
  intro items
  induction items with
  | nil => intro acc h; exact h
  | cons p rest ih =>
    intro acc h
    rw [List.foldl_cons]
    exact ih _ (dedupAppend_nodup p.2 acc h)

lemma collectAbs_outer_mem (H : ScenarioHierarchy) :
    ∀ (devs : List Nat) (acc : List Connection) (x : Connection),
      x ∈ devs.foldl
          (fun acc d =>
            (H.absoluteConnections d).foldl (fun acc2 p => dedupAppend acc2 p.2) acc)
          acc ↔
        x ∈ acc ∨ ∃ d ∈ devs, ∃ p ∈ H.absoluteConnections d, x ∈ p.2 := by
  intro devs
  induction devs with
  | nil => intro acc x; simp
  | cons d rest ih =>
    intro acc x
    rw [List.foldl_cons, ih, absConnFold_mem H]
    simp only [List.mem_cons]
    constructor
    · rintro ((h | h) | ⟨d2, hd2, h⟩)
      · exact Or.inl h
      · exact Or.inr ⟨d, Or.inl rfl, h⟩
      · exact Or.inr ⟨d2, Or.inr hd2, h⟩
    · rintro (h | ⟨d2, hd2 | hd2, h⟩)
      · exact Or.inl (Or.inl h)
      · exact Or.inl (Or.inr (hd2 ▸ h))
      · exact Or.inr ⟨d2, hd2, h⟩

lemma collectAbs_outer_nodup (H : ScenarioHierarchy) :
    ∀ (devs : List Nat) (acc : List Connection),
      acc.Nodup →
        (devs.foldl
          (fun acc d =>
            (H.absoluteConnections d).foldl (fun acc2 p => dedupAppend acc2 p.2) acc)
          acc).Nodup := by
  intro devs
  induction devs with
  | nil => intro acc h; exact h
  | cons d rest ih =>
    intro acc h
    rw [List.foldl_cons]
    exact ih _ (absConnFold_nodup H _ acc h)

lemma findSingleScBaseLoop_mem (c : Nat) :
    ∀ (bs : List Nat) (acc : Option Nat) (b : Nat),
      findSingleScBaseLoop c bs acc = .ok (some b) → b ∈ bs ∨ acc = some b := by
  intro bs
  induction bs with
  | nil =>
    intro acc b h
    simp only [findSingleScBaseLoop, Except.ok.injEq] at h
    exact Or.inr h
  | cons p rest ih =>
    intro acc b h
    simp only [findSingleScBaseLoop] at h
    cases acc with
    | some x => cases h
    | none =>
      rcases ih (some p) b h with hmem | hacc
      · exact Or.inl (List.mem_cons_of_mem p hmem)
      · cases hacc
        exact Or.inl (List.mem_cons_self p rest)

/-- The absolute-device walk does not depend on the fuel, as long as the
fuel exceeds the class identifier. -/
lemma absDevAux_fuel_irrel (H : ScenarioHierarchy)
    (hlt : ∀ x q, q ∈ H.scBases x → q < x) :
    ∀ c f1 f2, c < f1 → c < f2 →
      getAllAbsInnerDeviceClassesAux H f1 c = getAllAbsInnerDeviceClassesAux H f2 c := by
  intro c
  induction c using Nat.strong_induction_on with
  | _ c ih =>
    intro f1 f2 h1 h2
    obtain ⟨a, rfl⟩ : ∃ a, f1 = a + 1 := ⟨f1 - 1, by omega⟩
    obtain ⟨b, rfl⟩ : ∃ b, f2 = b + 1 := ⟨f2 - 1, by omega⟩
    by_cases hl : (H.localDevices c).length = 0
    · cases hf : findSingleScBaseLoop c (H.scBases c) none with
      | error e => simp only [getAllAbsInnerDeviceClassesAux, hl, reduceIte, hf]
      | ok o =>
        cases o with
        | none => simp only [getAllAbsInnerDeviceClassesAux, hl, reduceIte, hf]
        | some p =>
          by_cases hp : p = 0
          · simp only [getAllAbsInnerDeviceClassesAux, hl, reduceIte, hf, hp]
          · have hpc : p < c := by
              rcases findSingleScBaseLoop_mem c (H.scBases c) none p hf with hmem | habs
              · exact hlt c p hmem
              · cases habs
            have hrec := ih p hpc a b (by omega) (by omega)
            simp only [getAllAbsInnerDeviceClassesAux, hl, reduceIte, hf, hp, hrec]
    · simp only [getAllAbsInnerDeviceClassesAux]
      rw [if_neg hl, if_neg hl]

end Balder

/-- C8 (amended): `get_all_abs_connections` indeed aggregates, de-duplicated
(`Nodup` plus the membership characterisation), across the devices of the
nearest ancestor that declares inner devices, walking up the single-parent
chain; `get_all_connections` however aggregates only over the *locally*
declared device classes, without de-duplication, and returns `[]` (instead
of the ancestor's connections) when the class declares no devices of its
own. -/
theorem c8_connection_aggregation (H : ScenarioHierarchy) (c b : Nat)
    (hlt : ∀ x q, q ∈ H.scBases x → q < x) :
    (∀ devs, get_all_abs_inner_device_classes H c = .ok devs →
        get_all_abs_connections H c = .ok (collectAbsConnections H devs) ∧
          (collectAbsConnections H devs).Nodup ∧
          (∀ x, x ∈ collectAbsConnections H devs ↔
            ∃ d ∈ devs, ∃ p ∈ H.absoluteConnections d, x ∈ p.2)) ∧
      (H.localDevices c = [] → H.scBases c = [b] → b ≠ 0 →
        get_all_abs_inner_device_classes H c =
            get_all_abs_inner_device_classes H b ∧
          get_all_connections H c = []) := by
  constructor
  · intro devs hdevs
    refine ⟨?_, ?_, ?_⟩
    · rw [get_all_abs_connections, hdevs]
    · exact collectAbs_outer_nodup H devs [] List.nodup_nil
    · intro x
      rw [collectAbsConnections, collectAbs_outer_mem]
      simp
  · intro hlocal hbase hb0
    constructor
    · have hbc : b < c := hlt c b (by rw [hbase]; exact List.mem_cons_self b [])
      rw [get_all_abs_inner_device_classes, getAllAbsInnerDeviceClassesAux]
      simp only [hlocal, List.length_nil, reduceIte, hbase,
        show findSingleScBaseLoop c [b] none = .ok (some b) from rfl, hb0]
      rw [get_all_abs_inner_device_classes]
      exact absDevAux_fuel_irrel H hlt b c (b + 1) hbc (Nat.lt_succ_self b)
    · rw [get_all_connections, hlocal]
      rfl

/-- C8 counterexample: in `c8Hierarchy`, class 2 declares no devices, so
`get_all_connections` returns `[]` while `get_all_abs_connections` walks up
to class 1 and returns its connection — the two functions do not both
return the ancestor's aggregate; moreover `get_all_connections` on class 1
keeps the duplicate occurrences of the same connection. -/
theorem c8_counterexample :
    get_all_connections c8Hierarchy 2 = [] ∧
      get_all_abs_connections c8Hierarchy 2 = .ok [c7Conn] ∧
      ([c7Conn] : List Connection) ≠ [] ∧
      get_all_connections c8Hierarchy 1 = [c7Conn, c7Conn] ∧
      ¬([c7Conn, c7Conn] : List Connection).Nodup :=
  ⟨rfl, rfl, by decide, rfl, by decide⟩

/-- C8 witness: the amended aggregation theorem applied to `c8Hierarchy` at
class 2 with parent 1. -/
theorem c8_witness :
    (∀ x q, q ∈ c8Hierarchy.scBases x → q < x) ∧
      ((∀ devs, get_all_abs_inner_device_classes c8Hierarchy 2 = .ok devs →
          get_all_abs_connections c8Hierarchy 2 =
              .ok (collectAbsConnections c8Hierarchy devs) ∧
            (collectAbsConnections c8Hierarchy devs).Nodup ∧
            (∀ x, x ∈ collectAbsConnections c8Hierarchy devs ↔
              ∃ d ∈ devs, ∃ p ∈ c8Hierarchy.absoluteConnections d, x ∈ p.2)) ∧
        (c8Hierarchy.localDevices 2 = [] → c8Hierarchy.scBases 2 = [1] →
          (1 : Nat) ≠ 0 →
          get_all_abs_inner_device_classes c8Hierarchy 2 =
              get_all_abs_inner_device_classes c8Hierarchy 1 ∧
            get_all_connections c8Hierarchy 2 = [])) := by
  have hlt : ∀ x q, q ∈ c8Hierarchy.scBases x → q < x := by
    intro x q hq
    by_cases h1 : x = 1
    · subst h1; simp [c8Hierarchy] at hq; omega
    · by_cases h2 : x = 2
      · subst h2; simp [c8Hierarchy] at hq; omega
      · simp [c8Hierarchy, h1, h2] at hq
  exact ⟨hlt, c8_connection_aggregation c8Hierarchy 2 1 hlt⟩
